import Mathlib

/-
Verification of the ipinfo Python client library's request/cache
orchestration layer, as a shallow embedding in Lean 4.

The embedding models:
  - JSON-ish record values (`Value`, `JVal`) and Python dicts as ordered
    association lists (`alGet` / `alSet`, insertion-order preserving like
    Python dicts);
  - `handler_utils.py`: `cache_key`, `read_coords`, `format_details`,
    `return_or_fail`;
  - `details.py`: the `Details` wrapper's attribute access;
  - `handler.py`: `Handler.getDetails` and `Handler.getBatchDetails`
    (the cache/bogon planning loop, chunk slicing, the network chunk loop
    with per-chunk replies supplied by a transport oracle, total-timeout
    checks at chunk boundaries, and the format-all pass), plus a heap model
    of the chunk-processing segment that makes the Python object aliasing
    between the cache and the result map explicit;
  - `handler_lite.py`: `HandlerLite.getDetails`.

Network responses are supplied by oracles (a single `HttpResponse` for the
single-key handlers, a `Nat → ChunkReply` oracle for batch chunks), and
elapsed wall-clock time is modelled by a per-chunk `duration` so that the
`timeout_total` boundary checks of the synchronous batch loop are explicit.
-/

set_option autoImplicit false

namespace Ipinfo

/-- A JSON-ish field value as it appears inside one record returned by the
API: null, a boolean, a string, or a small string-keyed object (used for
the country flag / currency / continent reference-table payloads). -/
inductive Value where
  | null
  | bool (b : Bool)
  | str (s : String)
  | table (t : List (String × String))
  deriving DecidableEq

/-- A record (Python dict with string keys), in insertion order. -/
abbrev Rec := List (String × Value)

/-- A JSON value at the top level of a response mapping: either a record
(a Python dict) or some other non-dict value (an error placeholder etc.).
The distinction matters because `getBatchDetails` formats only values that
are `isinstance(detail, dict)`. -/
inductive JVal where
  | obj (r : Rec)
  | other (v : Value)
  deriving DecidableEq

/-- Ordered association-list lookup: Python `d.get(key)` / `d[key]`. -/
def alGet {α : Type} : List (String × α) → String → Option α
  | [], _ => none
  | (k, v) :: rest, key => if k = key then some v else alGet rest key

/-- Ordered association-list update: Python `d[key] = val`. An existing
key keeps its position (Python dicts update in place); a new key is
appended at the end (Python dicts append in insertion order). -/
def alSet {α : Type} : List (String × α) → String → α → List (String × α)
  | [], key, val => [(key, val)]
  | (k, v) :: rest, key, val =>
    if k = key then (k, val) :: rest else (k, v) :: alSet rest key val

/-- Python `key in d`. -/
def alHasKey {α : Type} (l : List (String × α)) (key : String) : Bool :=
  (alGet l key).isSome

theorem alGet_alSet {α : Type} (l : List (String × α)) (k k' : String) (v : α) :
    alGet (alSet l k v) k' = if k = k' then some v else alGet l k' := by
  induction l with
  | nil => simp [alGet, alSet]
  | cons hd tl ih =>
    obtain ⟨hk, hv⟩ := hd
    by_cases h1 : hk = k
    · subst h1
      by_cases h2 : hk = k' <;> simp [alGet, alSet, h2]
    · by_cases h2 : hk = k'
      · subst h2
        simp [alGet, alSet, h1, Ne.symm h1]
      · simp [alGet, alSet, h1, h2, ih]

theorem alGet_alSet_self {α : Type} (l : List (String × α)) (k : String) (v : α) :
    alGet (alSet l k v) k = some v := by
  simp [alGet_alSet]

theorem alGet_alSet_ne {α : Type} (l : List (String × α)) (k k' : String) (v : α)
    (h : k ≠ k') : alGet (alSet l k v) k' = alGet l k' := by
  simp [alGet_alSet, h]

/-- Writing back the value a key already holds is a no-op (the update-in-place
semantics of Python dict assignment). -/
theorem alSet_self {α : Type} (l : List (String × α)) (k : String) (v : α)
    (h : alGet l k = some v) : alSet l k v = l := by
  induction l with
  | nil => simp [alGet] at h
  | cons hd tl ih =>
    obtain ⟨hk, hv⟩ := hd
    by_cases h1 : hk = k
    · subst h1
      simp [alGet] at h
      simp [alSet, h]
    · simp [alGet, h1] at h
      simp [alSet, h1, ih h]

/-- Base URL used to build country flag image links
(`handler_utils.COUNTRY_FLAGS_URL`). -/
def COUNTRY_FLAGS_URL : String := "https://cdn.ipinfo.io/static/images/countries-flags/"

/-- The current version of the cached data (`handler_utils.CACHE_KEY_VSN`). -/
def CACHE_KEY_VSN : String := "1"

/-- The max amount of IPs allowed by the API per batch request
(`handler_utils.BATCH_MAX_SIZE`). -/
def BATCH_MAX_SIZE : Nat := 1000

/-- The versioned cache-key transform with the version tag made a parameter:
the f-string body of `handler_utils.cache_key`. -/
def cache_keyWith (vsn : String) (k : String) : String := k ++ ":" ++ vsn

/-- Transforms a user-input key into a versioned cache key
(`handler_utils.cache_key`). -/
def cache_key (k : String) : String := cache_keyWith CACHE_KEY_VSN k

/-- Accumulator loop for `splitOnSep`: walks the character list, cutting at
each separator. -/
def splitGo (sep : Char) : List Char → List Char → List String
  | [], acc => [String.mk acc.reverse]
  | c :: cs, acc =>
    if c = sep then String.mk acc.reverse :: splitGo sep cs []
    else splitGo sep cs (c :: acc)

/-- Python `s.split(sep)` for a one-character separator: splits at every
occurrence, producing empty pieces for adjacent separators, and yields a
single one-element list for the empty string (like Python). Defined
structurally so concrete instances evaluate in the kernel. -/
def splitOnSep (sep : Char) (s : String) : List String :=
  splitGo sep s.data []

/-- Python truthiness for the values that can appear in a record: `None`
and `False` are falsy, a string is truthy iff non-empty, a dict is truthy
iff non-empty. -/
def truthy : Value → Bool
  | .null => false
  | .bool b => b
  | .str s => s ≠ ""
  | .table t => t ≠ []

/-- A Python optional string as a record field value (`None` becomes null). -/
def optToVal : Option String → Value
  | some s => .str s
  | none => .null

/-- Given a location of the form `lat,lon`, returns the latitude and
longitude as a pair, `none` for each component if the form is invalid
(`handler_utils.read_coords`). A `none` input models Python `None`;
the falsy check `if location else ""` collapses `None` and `""` to an
empty sequence of coordinates. -/
def read_coords (location : Option String) : Option String × Option String :=
  let coords : List String :=
    match location with
    | some s => if s ≠ "" then splitOnSep ',' s else []
    | none => []
  match coords with
  | [a, b] => if a ≠ "" ∧ b ≠ "" then (some a, some b) else (none, none)
  | _ => (none, none)

/-- Parses a decimal numeral made only of ASCII digits. -/
def digitsToNat : List Char → Option Nat
  | [] => none
  | cs =>
    if cs.all (fun c => c.isDigit) then
      some (cs.foldl (fun n c => n * 10 + (c.toNat - 48)) 0)
    else none

/-- Parses a dotted-quad IPv4 literal into its four octets. -/
def parseIPv4 (s : String) : Option (Nat × Nat × Nat × Nat) :=
  match splitOnSep '.' s with
  | [a, b, c, d] =>
    match digitsToNat a.data, digitsToNat b.data, digitsToNat c.data, digitsToNat d.data with
    | some na, some nb, some nc, some nd =>
      if na ≤ 255 ∧ nb ≤ 255 ∧ nc ≤ 255 ∧ nd ≤ 255 then some (na, nb, nc, nd) else none
    | _, _, _, _ => none
  | _ => none

/-- The numeric value of an IPv4 address. -/
def ipv4Num (q : Nat × Nat × Nat × Nat) : Nat :=
  ((q.1 * 256 + q.2.1) * 256 + q.2.2.1) * 256 + q.2.2.2

/-- The reserved IPv4 ranges (as base address and prefix length) that the
bogon classifier covers: current/unspecified, private-use, shared CGN,
loopback, link-local, IETF protocol, documentation, private-use,
benchmarking, documentation 2 and 3, multicast, reserved. -/
def bogonV4Ranges : List ((Nat × Nat × Nat × Nat) × Nat) :=
  [((0, 0, 0, 0), 8), ((10, 0, 0, 0), 8), ((100, 64, 0, 0), 10),
   ((127, 0, 0, 0), 8), ((169, 254, 0, 0), 16), ((172, 16, 0, 0), 12),
   ((192, 0, 0, 0), 24), ((192, 0, 2, 0), 24), ((192, 168, 0, 0), 16),
   ((198, 18, 0, 0), 15), ((198, 51, 100, 0), 24), ((203, 0, 113, 0), 24),
   ((224, 0, 0, 0), 4), ((240, 0, 0, 0), 4)]

/-- Whether the character list `p` is an initial segment of `l`. -/
def charsLead : List Char → List Char → Bool
  | [], _ => true
  | _ :: _, [] => false
  | p :: ps, c :: cs => p = c && charsLead ps cs

/-- Modelled from the spec: the repository imports `is_bogon` from
`ipinfo/bogon.py`, which is not under `src/`. Per the spec (section 4.1,
BogonClassifier) it is a pure, deterministic, total predicate over IP
literals that covers the reserved (non-globally-routable) ranges of both
address families — loopback, link-local, private-use, multicast,
documentation, etc. — and returns `false` on syntactically invalid input
("not a known bogon", not an error). IPv4 literals are parsed and checked
against the reserved ranges; IPv6 literals are recognised by their
reserved leading groups. -/
def is_bogon (ip : String) : Bool :=
  match parseIPv4 ip with
  | some q =>
    bogonV4Ranges.any (fun r =>
      ipv4Num q / 2 ^ (32 - r.2) = ipv4Num r.1 / 2 ^ (32 - r.2))
  | none =>
    if ip.data.contains ':' then
      ip = "::" || ip = "::1" ||
      charsLead "fe80:".data ip.data || charsLead "fec0:".data ip.data ||
      charsLead "fc".data ip.data || charsLead "fd".data ip.data ||
      charsLead "ff".data ip.data || charsLead "2001:db8:".data ip.data ||
      charsLead "2002:".data ip.data || charsLead "::ffff:".data ip.data
    else false

/-- The five static reference tables held by a handler: country names,
EU membership, flags, currencies, continents (loaded in
`Handler.__init__`). -/
structure RefTables where
  countries : List (String × String)
  eu_countries : List String
  countries_flags : List (String × Value)
  countries_currencies : List (String × Value)
  continents : List (String × Value)
  deriving DecidableEq

/-- The country code read at the top of `handler_utils.format_details`:
the `country_code` field if present, else the `country` field if present,
else the initial `""`. -/
def countryCodeOf (details : Rec) : Value :=
  if alHasKey details "country_code" then (alGet details "country_code").getD .null
  else if alHasKey details "country" then (alGet details "country").getD .null
  else .str ""

/-- One walrus-guarded write of `format_details`: writes `key` when the
looked-up value exists and is truthy, else leaves the record unchanged.
(`copy.deepcopy` on the immutable table payload is the identity here.) -/
def condSetTruthy (d : Rec) (key : String) : Option Value → Rec
  | some v => if truthy v then alSet d key v else d
  | none => d

/-- The write chain of `handler_utils.format_details` for a string country
code `s` (lines 79-88): country_name if known and truthy, isEU always,
country_flag_url always, then flag / currency / continent when known and
truthy. -/
def fdDerived (tbl : RefTables) (s : String) (details : Rec) : Rec :=
  let d1 := match alGet tbl.countries s with
    | some name => if name ≠ "" then alSet details "country_name" (.str name) else details
    | none => details
  let d2 := alSet d1 "isEU" (.bool (tbl.eu_countries.contains s))
  let d3 := alSet d2 "country_flag_url" (.str (COUNTRY_FLAGS_URL ++ s ++ ".svg"))
  let d4 := condSetTruthy d3 "country_flag" (alGet tbl.countries_flags s)
  let d5 := condSetTruthy d4 "country_currency" (alGet tbl.countries_currencies s)
  condSetTruthy d5 "continent" (alGet tbl.continents s)

/-- The tail of `format_details` (lines 89-90): read `loc` from the record
after the derived writes, and when truthy split it into latitude and
longitude (writing both fields, possibly with null values). A truthy
non-string `loc` would make Python raise `AttributeError` on `.split`,
modelled as `none`. -/
def fdAfterCC (tbl : RefTables) (s : String) (details : Rec) : Option Rec :=
  let d6 := fdDerived tbl s details
  match alGet d6 "loc" with
  | some loc =>
    if truthy loc then
      match loc with
      | .str ls =>
        let co := read_coords (some ls)
        some (alSet (alSet d6 "latitude" (optToVal co.1)) "longitude" (optToVal co.2))
      | _ => none
    else some d6
  | none => some d6

/-- Format details given the reference tables
(`handler_utils.format_details`). Python mutates the record in place; here
the updated record is returned. `none` models the `TypeError` Python
raises at the `country_flag_url` concatenation when the country code field
holds a non-string (or the `AttributeError` for a truthy non-string
`loc`). -/
def format_details (tbl : RefTables) (details : Rec) : Option Rec :=
  match countryCodeOf details with
  | .str s => fdAfterCC tbl s details
  | _ => none

/-- Apply a list of dict writes in order. -/
def applyWrites : List (String × Value) → Rec → Rec
  | [], d => d
  | (k, v) :: ws, d => applyWrites ws (alSet d k v)

/-- The write a walrus-guarded assignment performs, as a list. -/
def optWrite (key : String) : Option Value → List (String × Value)
  | some v => if truthy v then [(key, v)] else []
  | none => []

/-- The writes `fdDerived` performs, as a list of key-value pairs
(they depend only on the tables and the country code, not on the record). -/
def derivedWrites (tbl : RefTables) (s : String) : List (String × Value) :=
  (match alGet tbl.countries s with
   | some name => if name ≠ "" then [("country_name", Value.str name)] else []
   | none => []) ++
  [("isEU", .bool (tbl.eu_countries.contains s)),
   ("country_flag_url", .str (COUNTRY_FLAGS_URL ++ s ++ ".svg"))] ++
  optWrite "country_flag" (alGet tbl.countries_flags s) ++
  optWrite "country_currency" (alGet tbl.countries_currencies s) ++
  optWrite "continent" (alGet tbl.continents s)

/-- The derived-field keys `format_details` can write (besides
latitude/longitude). -/
def derivedKeys : List String :=
  ["country_name", "isEU", "country_flag_url", "country_flag",
   "country_currency", "continent"]

theorem applyWrites_append (ws1 ws2 : List (String × Value)) (d : Rec) :
    applyWrites (ws1 ++ ws2) d = applyWrites ws2 (applyWrites ws1 d) := by
  induction ws1 generalizing d with
  | nil => rfl
  | cons w ws ih =>
    obtain ⟨k, v⟩ := w
    simp [applyWrites, ih]

theorem applyWrites_optWrite (key : String) (ov : Option Value) (d : Rec) :
    applyWrites (optWrite key ov) d = condSetTruthy d key ov := by
  cases ov with
  | none => rfl
  | some v =>
    simp only [optWrite, condSetTruthy]
    split <;> rfl

/-- The let-chain of `fdDerived` is the write list `derivedWrites` applied
in order. -/
theorem fdDerived_eq (tbl : RefTables) (s : String) (d : Rec) :
    fdDerived tbl s d = applyWrites (derivedWrites tbl s) d := by
  unfold fdDerived derivedWrites
  rw [applyWrites_append, applyWrites_append, applyWrites_append,
    applyWrites_append, applyWrites_optWrite, applyWrites_optWrite,
    applyWrites_optWrite]
  cases h1 : alGet tbl.countries s with
  | none => rfl
  | some name =>
    by_cases h2 : name = "" <;> simp [h2, applyWrites]

theorem alGet_applyWrites_not_mem (ws : List (String × Value)) (d : Rec)
    (key : String) (h : key ∉ ws.map Prod.fst) :
    alGet (applyWrites ws d) key = alGet d key := by
  induction ws generalizing d with
  | nil => rfl
  | cons w ws ih =>
    obtain ⟨k, v⟩ := w
    simp only [List.map_cons, List.mem_cons, not_or] at h
    simp only [applyWrites]
    rw [ih (alSet d k v) h.2, alGet_alSet_ne d k key v (fun he => h.1 he.symm)]

/-- Rewriting every key-value pair a record already holds is a no-op. -/
theorem applyWrites_noop (ws : List (String × Value)) (d : Rec)
    (h : ∀ kv ∈ ws, alGet d kv.1 = some kv.2) : applyWrites ws d = d := by
  induction ws with
  | nil => rfl
  | cons w ws ih =>
    obtain ⟨k, v⟩ := w
    have hs : alSet d k v = d := alSet_self d k v (h (k, v) (List.mem_cons_self _ _))
    simp only [applyWrites, hs]
    exact ih (fun kv hkv => h kv (List.mem_cons_of_mem _ hkv))

/-- After a write list with pairwise-distinct keys is applied, each written
key holds its written value. -/
theorem alGet_applyWrites_mem (ws : List (String × Value)) (d : Rec)
    (k : String) (v : Value) (hnd : (ws.map Prod.fst).Nodup) (hmem : (k, v) ∈ ws) :
    alGet (applyWrites ws d) k = some v := by
  induction ws generalizing d with
  | nil => cases hmem
  | cons w ws ih =>
    obtain ⟨k', v'⟩ := w
    simp only [List.map_cons, List.nodup_cons] at hnd
    rcases List.mem_cons.mp hmem with heq | htl
    · obtain ⟨hk, hv⟩ := Prod.mk.injEq .. ▸ heq
      subst hk; subst hv
      simp only [applyWrites]
      rw [alGet_applyWrites_not_mem ws _ k hnd.1, alGet_alSet_self]
    · exact ih _ hnd.2 htl

theorem optWrite_keys_sub (key : String) (ov : Option Value) :
    List.Sublist ((optWrite key ov).map Prod.fst) [key] := by
  cases ov with
  | none => exact List.nil_sublist _
  | some v =>
    simp only [optWrite]
    split
    · simp
    · exact List.nil_sublist _

/-- The keys `fdDerived` writes form a subsequence of `derivedKeys`. -/
theorem derivedWrites_keys_sub (tbl : RefTables) (s : String) :
    List.Sublist ((derivedWrites tbl s).map Prod.fst) derivedKeys := by
  unfold derivedWrites
  have hm : derivedKeys =
      ["country_name"] ++ ["isEU", "country_flag_url"] ++ ["country_flag"] ++
        ["country_currency"] ++ ["continent"] := rfl
  rw [hm, List.map_append, List.map_append, List.map_append, List.map_append]
  refine List.Sublist.append (List.Sublist.append (List.Sublist.append
    (List.Sublist.append ?_ ?_) (optWrite_keys_sub _ _)) (optWrite_keys_sub _ _))
    (optWrite_keys_sub _ _)
  · cases h1 : alGet tbl.countries s with
    | none => exact List.nil_sublist _
    | some name =>
      by_cases h2 : name = "" <;> simp [h2]
  · simp

theorem derivedWrites_keys_nodup (tbl : RefTables) (s : String) :
    ((derivedWrites tbl s).map Prod.fst).Nodup :=
  (derivedWrites_keys_sub tbl s).nodup (by decide)

/-- Reading any key outside `derivedKeys` is unchanged by the derived
writes. -/
theorem alGet_fdDerived_stable (tbl : RefTables) (s : String) (d : Rec)
    (key : String) (hkey : key ∉ derivedKeys) :
    alGet (fdDerived tbl s d) key = alGet d key := by
  rw [fdDerived_eq]
  exact alGet_applyWrites_not_mem _ _ _
    (fun hmem => hkey ((derivedWrites_keys_sub tbl s).subset hmem))

theorem countryCodeOf_congr (d2 d : Rec)
    (h1 : alGet d2 "country_code" = alGet d "country_code")
    (h2 : alGet d2 "country" = alGet d "country") :
    countryCodeOf d2 = countryCodeOf d := by
  unfold countryCodeOf alHasKey
  rw [h1, h2]

/-- A successful run of `format_details` writes only keys in `derivedKeys`
plus latitude/longitude, so reading any other key of the output record
gives the input record's value. -/
theorem alGet_format_details_stable (tbl : RefTables) (d d2 : Rec)
    (h : format_details tbl d = some d2) (key : String)
    (hk1 : key ∉ derivedKeys) (hk2 : key ≠ "latitude") (hk3 : key ≠ "longitude") :
    alGet d2 key = alGet d key := by
  unfold format_details at h
  cases hcc : countryCodeOf d <;> simp only [hcc] at h
  case bool b => exact absurd h (by simp)
  case null => exact absurd h (by simp)
  case table t => exact absurd h (by simp)
  case str s =>
  simp only [fdAfterCC] at h
  cases hloc : alGet (fdDerived tbl s d) "loc" <;> simp only [hloc] at h
  case none =>
    obtain rfl := Option.some.inj h
    exact alGet_fdDerived_stable tbl s d key hk1
  case some loc =>
    by_cases htr : truthy loc
    · rw [if_pos htr] at h
      cases loc
      · simp at h
      · simp at h
      · obtain rfl := Option.some.inj h
        rw [alGet_alSet_ne _ _ _ _ (fun he => hk3 he.symm),
          alGet_alSet_ne _ _ _ _ (fun he => hk2 he.symm)]
        exact alGet_fdDerived_stable tbl s d key hk1
      · simp at h
    · rw [if_neg htr] at h
      obtain rfl := Option.some.inj h
      exact alGet_fdDerived_stable tbl s d key hk1

/-- Applying `format_details` to its own successful output is the identity:
the second application takes the same branches and overwrites every derived
field with the identical value. -/
theorem format_details_stable (tbl : RefTables) (d d2 : Rec)
    (h : format_details tbl d = some d2) : format_details tbl d2 = some d2 := by
  have hstab : ∀ key, key ∉ derivedKeys → key ≠ "latitude" → key ≠ "longitude" →
      alGet d2 key = alGet d key :=
    fun key => alGet_format_details_stable tbl d d2 h key
  have hcc2 : countryCodeOf d2 = countryCodeOf d :=
    countryCodeOf_congr d2 d
      (hstab "country_code" (by decide) (by decide) (by decide))
      (hstab "country" (by decide) (by decide) (by decide))
  unfold format_details at h
  cases hcc : countryCodeOf d <;> simp only [hcc] at h
  case bool b => exact absurd h (by simp)
  case null => exact absurd h (by simp)
  case table t => exact absurd h (by simp)
  case str s =>
  rw [hcc] at hcc2
  -- the write chain of the second run is a no-op on d2
  have hW2 : fdDerived tbl s d2 = d2 := by
    rw [fdDerived_eq]
    apply applyWrites_noop
    intro kv hkv
    have hk6 : kv.1 ∈ derivedKeys :=
      (derivedWrites_keys_sub tbl s).subset (List.mem_map_of_mem Prod.fst hkv)
    have hklat : kv.1 ≠ "latitude" := by
      intro he; rw [he] at hk6; exact absurd hk6 (by decide)
    have hklon : kv.1 ≠ "longitude" := by
      intro he; rw [he] at hk6; exact absurd hk6 (by decide)
    simp only [fdAfterCC] at h
    cases hloc : alGet (fdDerived tbl s d) "loc" <;> simp only [hloc] at h
    case none =>
      obtain rfl := Option.some.inj h
      rw [fdDerived_eq]
      exact alGet_applyWrites_mem _ _ _ _ (derivedWrites_keys_nodup tbl s) hkv
    case some loc =>
      by_cases htr : truthy loc
      · rw [if_pos htr] at h
        cases loc
        · simp at h
        · simp at h
        · obtain rfl := Option.some.inj h
          rw [alGet_alSet_ne _ _ _ _ (fun he => hklon he.symm),
            alGet_alSet_ne _ _ _ _ (fun he => hklat he.symm), fdDerived_eq]
          exact alGet_applyWrites_mem _ _ _ _ (derivedWrites_keys_nodup tbl s) hkv
        · simp at h
      · rw [if_neg htr] at h
        obtain rfl := Option.some.inj h
        rw [fdDerived_eq]
        exact alGet_applyWrites_mem _ _ _ _ (derivedWrites_keys_nodup tbl s) hkv
  have hloc2 : alGet d2 "loc" = alGet d "loc" :=
    hstab "loc" (by decide) (by decide) (by decide)
  have hl1 : alGet (fdDerived tbl s d) "loc" = alGet d "loc" :=
    alGet_fdDerived_stable tbl s d "loc" (by decide)
  unfold format_details
  rw [hcc2]
  show fdAfterCC tbl s d2 = some d2
  simp only [fdAfterCC] at h ⊢
  rw [hl1] at h
  rw [hW2, hloc2]
  cases hloc : alGet d "loc" with
  | none => simp only [hloc]
  | some loc =>
    simp only [hloc] at h ⊢
    by_cases htr : truthy loc
    · rw [if_pos htr] at h ⊢
      cases loc
      all_goals simp at h
      rename_i ls
      · obtain rfl := h
        have hlat : alGet
            (alSet (alSet (fdDerived tbl s d) "latitude"
                (optToVal (read_coords (some ls)).1)) "longitude"
              (optToVal (read_coords (some ls)).2)) "latitude" =
              some (optToVal (read_coords (some ls)).1) := by
          rw [alGet_alSet_ne _ _ _ _ (by decide), alGet_alSet_self]
        show some (alSet (alSet (alSet (alSet (fdDerived tbl s d) "latitude"
            (optToVal (read_coords (some ls)).1)) "longitude"
            (optToVal (read_coords (some ls)).2)) "latitude"
            (optToVal (read_coords (some ls)).1)) "longitude"
            (optToVal (read_coords (some ls)).2)) = _
        rw [alSet_self _ _ _ hlat]
        rw [alSet_self _ _ _ (alGet_alSet_self _ _ _)]
    · rw [if_neg htr] at h ⊢

/-- A successful `format_details` output can be formatted again. -/
theorem format_details_isSome (tbl : RefTables) (d d2 : Rec)
    (h : format_details tbl d = some d2) : (format_details tbl d2).isSome := by
  rw [format_details_stable tbl d d2 h]
  rfl

/-- An HTTP response as the handlers observe it: the status code, the
Content-Type header (when present), the parsed JSON body (`none` when the
body is not valid JSON, in which case `response.json()` raises), and the
raw body text. -/
structure HttpResponse where
  status : Nat
  contentType : Option String
  jsonBody : Option JVal
  text : String
  deriving DecidableEq

/-- The failures a single-key lookup can raise: `RequestQuotaExceededError`
for HTTP 429, `APIError(code, body)` for other statuses >= 400, a JSON
decode error escaping `response.json()`, and the `TypeError` /
`AttributeError` Python would raise when `format_details` meets a
malformed record. -/
inductive ReqError where
  | quotaExceeded
  | apiError (code : Nat) (body : JVal)
  | jsonDecodeError
  | typeErr
  deriving DecidableEq

/-- Embedding of `Handler.getDetails` (handler.py, lines 102-161), with the network
response supplied by an oracle. Returns (whether a network request was
dispatched, the cache afterwards, and the `Details` payload or the raised
error). The `ip` argument is the already-normalized address string, `""`
standing for Python `None` (the caller's own address). -/
def getDetails (tbl : RefTables) (cache : List (String × JVal))
    (resp : HttpResponse) (ip : String) :
    Bool × List (String × JVal) × Except ReqError JVal :=
  -- check if bogon (short-circuits before the cache and the network)
  if ip ≠ "" ∧ is_bogon ip then
    (false, cache, .ok (.obj [("ip", .str ip), ("bogon", .bool true)]))
  else
    -- check cache first
    match alGet cache (cache_key ip) with
    | some cached => (false, cache, .ok cached)
    | none =>
      -- not in cache; do http req
      if resp.status = 429 then (true, cache, .error .quotaExceeded)
      else if 400 ≤ resp.status then
        match resp.jsonBody with
        | some j => (true, cache, .error (.apiError resp.status j))
        | none => (true, cache, .error .jsonDecodeError)
      else
        match resp.jsonBody with
        | none => (true, cache, .error .jsonDecodeError)
        | some (.other _) => (true, cache, .error .typeErr)
        | some (.obj r) =>
          match format_details tbl r with
          | none => (true, cache, .error .typeErr)
          | some r2 =>
            (true, alSet cache (cache_key ip) (.obj r2), .ok (.obj r2))

/-- Embedding of `HandlerLite.getDetails` (handler_lite.py, lines 80-139). Identical to
`Handler.getDetails` except for the error branch: for statuses >= 400
other than 429 it checks the Content-Type header and, when it is not
`application/json`, synthesizes the error body as a mapping with the raw
body text under the `error` key. -/
def getDetailsLite (tbl : RefTables) (cache : List (String × JVal))
    (resp : HttpResponse) (ip : String) :
    Bool × List (String × JVal) × Except ReqError JVal :=
  if ip ≠ "" ∧ is_bogon ip then
    (false, cache, .ok (.obj [("ip", .str ip), ("bogon", .bool true)]))
  else
    match alGet cache (cache_key ip) with
    | some cached => (false, cache, .ok cached)
    | none =>
      if resp.status = 429 then (true, cache, .error .quotaExceeded)
      else if 400 ≤ resp.status then
        if resp.contentType = some "application/json" then
          match resp.jsonBody with
          | some j => (true, cache, .error (.apiError resp.status j))
          | none => (true, cache, .error .jsonDecodeError)
        else
          (true, cache, .error (.apiError resp.status (.obj [("error", .str resp.text)])))
      else
        match resp.jsonBody with
        | none => (true, cache, .error .jsonDecodeError)
        | some (.other _) => (true, cache, .error .typeErr)
        | some (.obj r) =>
          match format_details tbl r with
          | none => (true, cache, .error .typeErr)
          | some r2 =>
            (true, alSet cache (cache_key ip) (.obj r2), .ok (.obj r2))

/-- The result of one attribute access on a `Details` object: either a
field value from the underlying mapping, or the full mapping itself (for
the `details` instance attribute and the `all` property). -/
inductive AttrResult where
  | value (v : Value)
  | mapping (r : Rec)
  deriving DecidableEq

/-- The `Details.__getattr__` fallback alone (details.py, lines 13-20):
return the field if it exists in the underlying mapping, else raise
`AttributeError` (modelled as `Except.error`). -/
def details_getattr (r : Rec) (attr : String) : Except Unit Value :=
  match alGet r attr with
  | some v => .ok v
  | none => .error ()

/-- Attribute access on a `Details` object under Python's lookup rules,
parameterized by `normalAttrs` — the set of names normal attribute
lookup finds on the instance before `__getattr__` is ever consulted:
the instance attribute `details` set in `__init__`, the class property
`all` and the class methods, and everything inherited from `object`
(`__class__`, `__dict__`, `__str__`, ...) — together with `getNormal`,
the value normal lookup yields for such a name. Python calls
`__getattr__` exactly for the names normal lookup does not find; the
exact extent of `normalAttrs` beyond what details.py itself binds
depends on the Python runtime, so it is kept a parameter rather than
hard-coded. -/
def details_access (normalAttrs : List String) (getNormal : String → AttrResult)
    (r : Rec) (attr : String) : Except Unit AttrResult :=
  if attr ∈ normalAttrs then .ok (getNormal attr)
  else
    match alGet r attr with
    | some v => .ok (.value v)
    | none => .error ()

/-- The names details.py itself binds on a `Details` instance: the
instance attribute `details` (assigned the underlying mapping in
`__init__`) and the property `all`. Python's true normal-lookup set
extends this with the class methods and the `object`-inherited
attributes, whose values are methods and metadata, never record
fields. -/
def detailsOwnAttrs : List String := ["details", "all"]

/-- On an instance holding the mapping `r`, both names in
`detailsOwnAttrs` evaluate under normal lookup to the full underlying
mapping: `details` is the instance attribute bound to it and `all` is
the property returning it. -/
def detailsOwnVal (r : Rec) : String → AttrResult := fun _ => .mapping r

/-- A value of the `getBatchDetails` result map: either a `Details` object
(only the synthesized bogon records are wrapped this way there) or a raw
top-level JSON value coming from the cache or from a batch response. -/
inductive RVal where
  | detailsObj (r : Rec)
  | jval (j : JVal)
  deriving DecidableEq

/-- What one `requests.post` for a batch chunk produces: either a raised
transport exception, or a response with a status code and a body that
parses as a JSON mapping from address to top-level value (`none` when the
body is not valid JSON, making `response.json()` raise). -/
inductive ChunkOutcome where
  | exc
  | resp (status : Nat) (body : Option (List (String × JVal)))
  deriving DecidableEq

/-- One batch network call as the transport oracle reports it: the outcome
plus the wall-clock seconds the call consumed (how far `time.time()`
advances across it). -/
structure ChunkReply where
  outcome : ChunkOutcome
  duration : Nat
  deriving DecidableEq

/-- The failures `getBatchDetails` can produce: quota (HTTP 429), an HTTP
error from `raise_for_status`, a transport exception, the total-timeout
error, and the two exceptions that escape the loop without passing through
`return_or_fail` (a JSON decode error from `response.json()` and the
`TypeError` from formatting a malformed record). -/
inductive BatchError where
  | quotaExceeded
  | httpError (status : Nat)
  | netExc
  | timeoutExceeded
  | jsonDecodeError
  | typeErr
  deriving DecidableEq

/-- Either throws `e` if `raise_on_fail` or else returns `v`
(`handler_utils.return_or_fail`); raising is modelled as `Except.error`. -/
def return_or_fail {α : Type} (raise_on_fail : Bool) (e : BatchError) (v : α) :
    Except BatchError α :=
  if raise_on_fail then .error e else .ok v

/-- One iteration of the pre-population loop of `Handler.getBatchDetails`
(handler.py, lines 208-229) for the address `ip`, exactly as written: if
the address is truthy and a bogon, a minimal Details record is placed into
`result`, OTHERWISE the address is appended to `lookup_addresses`; then —
for every address, bogon or not — the cache is consulted, a hit is copied
into `result` and a miss appends the address to `lookup_addresses`
(again). -/
def batchPlanStep (cache : List (String × JVal))
    (st : List (String × RVal) × List String) (ip : String) :
    List (String × RVal) × List String :=
  let st1 :=
    if ip ≠ "" ∧ is_bogon ip then
      (alSet st.1 ip (.detailsObj [("ip", .str ip), ("bogon", .bool true)]), st.2)
    else
      (st.1, st.2 ++ [ip])
  match alGet cache (cache_key ip) with
  | some cached => (alSet st1.1 ip (.jval cached), st1.2)
  | none => (st1.1, st1.2 ++ [ip])

/-- The pre-population loop of `Handler.getBatchDetails` over the whole
input list: returns the initial `result` map and the `lookup_addresses`
pending list. -/
def batchPlan (cache : List (String × JVal)) (ips : List String) :
    List (String × RVal) × List String :=
  ips.foldl (batchPlanStep cache) ([], [])

/-- The chunk start offsets `range(0, n, batch_size)` of the batch loop. -/
def chunkStarts (n batch_size : Nat) : List Nat :=
  (List.range ((n + batch_size - 1) / batch_size)).map (fun i => i * batch_size)

/-- The chunk slices `lookup_addresses[i : i + batch_size]` taken by the
batch loop, in order. -/
def chunksFor (l : List String) (batch_size : Nat) : List (List String) :=
  (chunkStarts l.length batch_size).map (fun i => (l.drop i).take batch_size)

/-- The `format all` pass applied to one result value: `format_details` on
dict values (`isinstance(detail, dict)`), every other value untouched.
`none` models the exception Python would raise on a malformed record. -/
def formatValue (tbl : RefTables) : RVal → Option RVal
  | .jval (.obj r) => (format_details tbl r).map (fun r2 => .jval (.obj r2))
  | v => some v

/-- The `format all` loop of `getBatchDetails` (lines 283-292): formats
every dict value of the result map in place, in order. -/
def formatAllVals (tbl : RefTables) :
    List (String × RVal) → Option (List (String × RVal))
  | [] => some []
  | (k, v) :: rest =>
    match formatValue tbl v with
    | none => none
    | some v2 =>
      match formatAllVals tbl rest with
      | none => none
      | some rest2 => some ((k, v2) :: rest2)

/-- The total-timeout test at a chunk boundary:
`timeout_total is not None and time.time() - start_time > timeout_total`. -/
def ttCheck (timeout_total : Option Nat) (elapsed : Nat) : Bool :=
  match timeout_total with
  | some t => decide (t < elapsed)
  | none => false

/-- Which failure (if any) a chunk reply triggers, in the order the code
tests them: a transport exception, HTTP 429, then `raise_for_status` for
statuses >= 400. -/
def failureOf : ChunkOutcome → Option BatchError
  | .exc => some .netExc
  | .resp status _ =>
    if status = 429 then some .quotaExceeded
    else if 400 ≤ status then some (.httpError status)
    else none

/-- The batch chunk loop of `Handler.getBatchDetails` (handler.py, lines
242-294), with the `idx`-th `requests.post` answered by `transport idx`.
State: the chunk index, the wall-clock seconds elapsed since `start_time`,
the cache, the accumulating result map, and the trace of chunks dispatched
so far (returned so that theorems can speak about which chunks were sent).
Each iteration first evaluates the total-timeout boundary check, then
dispatches, then fails via `return_or_fail` on a transport exception /
429 / bad status, else fills the cache with the raw response mapping,
merges it into the result, and runs the format-all pass. -/
def chunkLoop (tbl : RefTables) (transport : Nat → ChunkReply)
    (timeout_total : Option Nat) (raise_on_fail : Bool) :
    List (List String) → Nat → Nat → List (String × JVal) →
    List (String × RVal) → List (List String) →
    List (List String) × List (String × JVal) × Except BatchError (List (String × RVal))
  | [], _, _, cache, result, trace => (trace, cache, .ok result)
  | chunk :: rest, idx, elapsed, cache, result, trace =>
    if ttCheck timeout_total elapsed then
      (trace, cache, return_or_fail raise_on_fail .timeoutExceeded result)
    else
      let reply := transport idx
      match reply.outcome with
      | .exc => (trace ++ [chunk], cache, return_or_fail raise_on_fail .netExc result)
      | .resp status body =>
        if status = 429 then
          (trace ++ [chunk], cache, return_or_fail raise_on_fail .quotaExceeded result)
        else if 400 ≤ status then
          (trace ++ [chunk], cache, return_or_fail raise_on_fail (.httpError status) result)
        else
          match body with
          | none => (trace ++ [chunk], cache, .error .jsonDecodeError)
          | some json =>
            let cache2 := json.foldl (fun c kv => alSet c (cache_key kv.1) kv.2) cache
            let result2 := json.foldl (fun r kv => alSet r kv.1 (.jval kv.2)) result
            match formatAllVals tbl result2 with
            | none => (trace ++ [chunk], cache2, .error .typeErr)
            | some result3 =>
              chunkLoop tbl transport timeout_total raise_on_fail rest (idx + 1)
                (elapsed + reply.duration) cache2 result3 (trace ++ [chunk])

/-- Embedding of `Handler.getBatchDetails` (handler.py, lines 163-294): the
pre-population loop, the all-in-cache early return, then the chunk loop
over the `batch_size`-sized slices of the pending list. Returns the
dispatched-chunk trace, the final cache, and the result map or the raised
failure. -/
def getBatchDetails (tbl : RefTables) (cache : List (String × JVal))
    (transport : Nat → ChunkReply) (ips : List String) (batch_size : Nat)
    (timeout_total : Option Nat) (raise_on_fail : Bool) :
    List (List String) × List (String × JVal) × Except BatchError (List (String × RVal)) :=
  let plan := batchPlan cache ips
  if plan.2 = [] then ([], cache, .ok plan.1)
  else
    chunkLoop tbl transport timeout_total raise_on_fail
      (chunksFor plan.2 batch_size) 0 0 cache plan.1 []

/-- Cumulative durations of the replies for calls `idx, idx+1, ...,
idx+j-1`: the wall-clock elapsed at the boundary before the `j`-th
remaining chunk. -/
def sumFrom (transport : Nat → ChunkReply) (idx : Nat) : Nat → Nat
  | 0 => 0
  | j + 1 => (transport idx).duration + sumFrom transport (idx + 1) j

/-- A record the enricher accepts without raising (string country field,
string-or-absent-or-falsy loc). -/
def recGood (tbl : RefTables) (r : Rec) : Bool :=
  (format_details tbl r).isSome

/-- A top-level response value the format-all pass survives: records must
be formattable, non-dict values are skipped. -/
def jvalGood (tbl : RefTables) : JVal → Bool
  | .obj r => recGood tbl r
  | .other _ => true

/-- A result-map value the format-all pass survives. -/
def rvalGood (tbl : RefTables) : RVal → Bool
  | .jval j => jvalGood tbl j
  | .detailsObj _ => true

/-- Every value of a result map survives the format-all pass. -/
def resultGood (tbl : RefTables) (res : List (String × RVal)) : Bool :=
  res.all (fun kv => rvalGood tbl kv.2)

/-- Every value of a batch response body survives the format-all pass. -/
def bodyGood (tbl : RefTables) (body : List (String × JVal)) : Bool :=
  body.all (fun kv => jvalGood tbl kv.2)

/-- A chunk reply that succeeds: parsed body, not 429, status below 400,
and a body the format-all pass survives. -/
def replyOk (tbl : RefTables) (reply : ChunkReply) : Bool :=
  match reply.outcome with
  | .resp status (some body) =>
    !(status == 429) && decide (status < 400) && bodyGood tbl body
  | _ => false

theorem rvalGood_formatValue (tbl : RefTables) (v : RVal)
    (h : rvalGood tbl v = true) :
    ∃ v2, formatValue tbl v = some v2 ∧ rvalGood tbl v2 = true := by
  cases v with
  | detailsObj r => exact ⟨.detailsObj r, rfl, rfl⟩
  | jval j =>
    cases j with
    | other w => exact ⟨.jval (.other w), rfl, rfl⟩
    | obj r =>
      simp only [rvalGood, jvalGood, recGood] at h
      cases hf : format_details tbl r with
      | none => rw [hf] at h; exact absurd h (by simp)
      | some r2 =>
        refine ⟨.jval (.obj r2), ?_, ?_⟩
        · simp [formatValue, hf]
        · simp only [rvalGood, jvalGood, recGood]
          exact format_details_isSome tbl r r2 hf

theorem formatAllVals_ok (tbl : RefTables) (res : List (String × RVal))
    (h : resultGood tbl res = true) :
    ∃ res2, formatAllVals tbl res = some res2 ∧ resultGood tbl res2 = true := by
  induction res with
  | nil => exact ⟨[], rfl, rfl⟩
  | cons kv rest ih =>
    obtain ⟨k, v⟩ := kv
    simp only [resultGood, List.all_cons, Bool.and_eq_true] at h
    obtain ⟨v2, hv2, hv2g⟩ := rvalGood_formatValue tbl v h.1
    obtain ⟨rest2, hrest2, hrest2g⟩ := ih h.2
    refine ⟨(k, v2) :: rest2, ?_, ?_⟩
    · simp [formatAllVals, hv2, hrest2]
    · simp only [resultGood, List.all_cons, Bool.and_eq_true]
      exact ⟨hv2g, hrest2g⟩

theorem resultGood_alSet (tbl : RefTables) (res : List (String × RVal))
    (k : String) (v : RVal) (hres : resultGood tbl res = true)
    (hv : rvalGood tbl v = true) : resultGood tbl (alSet res k v) = true := by
  induction res with
  | nil => simpa [resultGood, alSet]
  | cons kv rest ih =>
    obtain ⟨k', v'⟩ := kv
    simp only [resultGood, List.all_cons, Bool.and_eq_true] at hres
    by_cases hk : k' = k
    · simp [alSet, hk, resultGood, hv, hres.2]
    · simp only [alSet, hk, if_false, resultGood, List.all_cons, Bool.and_eq_true]
      exact ⟨hres.1, ih hres.2⟩

theorem resultGood_merge (tbl : RefTables) (json : List (String × JVal))
    (res : List (String × RVal)) (hres : resultGood tbl res = true)
    (hjson : bodyGood tbl json = true) :
    resultGood tbl (json.foldl (fun r kv => alSet r kv.1 (.jval kv.2)) res) = true := by
  induction json generalizing res with
  | nil => exact hres
  | cons kv rest ih =>
    simp only [bodyGood, List.all_cons, Bool.and_eq_true] at hjson
    simp only [List.foldl_cons]
    refine ih _ ?_ hjson.2
    exact resultGood_alSet tbl res kv.1 (.jval kv.2) hres (by simpa [rvalGood] using hjson.1)

/-- One chunk iteration when the boundary timeout fires. -/
theorem chunkLoop_step_tt (tbl : RefTables) (transport : Nat → ChunkReply)
    (tt : Option Nat) (rof : Bool) (ch : List String) (rest : List (List String))
    (idx elapsed : Nat) (cache : List (String × JVal)) (result : List (String × RVal))
    (trace : List (List String)) (htt : ttCheck tt elapsed = true) :
    chunkLoop tbl transport tt rof (ch :: rest) idx elapsed cache result trace =
      (trace, cache, return_or_fail rof .timeoutExceeded result) := by
  simp [chunkLoop, htt]

/-- One chunk iteration when the reply is a failure. -/
theorem chunkLoop_step_fail (tbl : RefTables) (transport : Nat → ChunkReply)
    (tt : Option Nat) (rof : Bool) (ch : List String) (rest : List (List String))
    (idx elapsed : Nat) (cache : List (String × JVal)) (result : List (String × RVal))
    (trace : List (List String)) (e : BatchError)
    (htt : ttCheck tt elapsed = false)
    (hfail : failureOf (transport idx).outcome = some e) :
    chunkLoop tbl transport tt rof (ch :: rest) idx elapsed cache result trace =
      (trace ++ [ch], cache, return_or_fail rof e result) := by
  cases houtcome : (transport idx).outcome with
  | exc =>
    rw [houtcome] at hfail
    obtain rfl := Option.some.inj hfail
    simp [chunkLoop, htt, houtcome]
  | resp status body =>
    rw [houtcome] at hfail
    simp only [failureOf] at hfail
    by_cases h429 : status = 429
    · rw [if_pos h429] at hfail
      obtain rfl := Option.some.inj hfail
      simp [chunkLoop, htt, houtcome, h429]
    · rw [if_neg h429] at hfail
      by_cases h400 : 400 ≤ status
      · rw [if_pos h400] at hfail
        obtain rfl := Option.some.inj hfail
        simp [chunkLoop, htt, houtcome, h429, h400]
      · rw [if_neg h400] at hfail
        exact absurd hfail (by simp)

/-- One chunk iteration when the reply succeeds: the loop fills the cache
with the response, merges it into the result, formats all values, and
moves on to the next chunk with the elapsed clock advanced by the call's
duration. -/
theorem chunkLoop_step_ok (tbl : RefTables) (transport : Nat → ChunkReply)
    (tt : Option Nat) (rof : Bool) (ch : List String) (rest : List (List String))
    (idx elapsed : Nat) (cache : List (String × JVal)) (result : List (String × RVal))
    (trace : List (List String)) (status : Nat) (json : List (String × JVal))
    (result3 : List (String × RVal))
    (htt : ttCheck tt elapsed = false)
    (houtcome : (transport idx).outcome = .resp status (some json))
    (h429 : status ≠ 429) (h400 : ¬ 400 ≤ status)
    (hfmt : formatAllVals tbl
      (json.foldl (fun r kv => alSet r kv.1 (.jval kv.2)) result) = some result3) :
    chunkLoop tbl transport tt rof (ch :: rest) idx elapsed cache result trace =
      chunkLoop tbl transport tt rof rest (idx + 1) (elapsed + (transport idx).duration)
        (json.foldl (fun c kv => alSet c (cache_key kv.1) kv.2) cache) result3
        (trace ++ [ch]) := by
  simp [chunkLoop, htt, houtcome, h429, h400, hfmt]

theorem replyOk_elim (tbl : RefTables) (reply : ChunkReply)
    (h : replyOk tbl reply = true) :
    ∃ status json, reply.outcome = .resp status (some json) ∧ status ≠ 429 ∧
      ¬ 400 ≤ status ∧ bodyGood tbl json = true := by
  cases ho : reply.outcome with
  | exc => rw [replyOk, ho] at h; exact absurd h (by simp)
  | resp status body =>
    cases body with
    | none => rw [replyOk, ho] at h; exact absurd h (by simp)
    | some json =>
      rw [replyOk, ho] at h
      simp only [Bool.and_eq_true, Bool.not_eq_eq_eq_not, Bool.not_true,
        beq_eq_false_iff_ne, decide_eq_true_eq] at h
      exact ⟨status, json, rfl, h.1.1, Nat.not_le.mpr h.1.2, h.2⟩

/-- If every remaining chunk's reply succeeds and no boundary timeout
fires, the loop dispatches every remaining chunk and returns `.ok`,
regardless of `raise_on_fail` — in particular the final elapsed time is
never re-checked after the last chunk completes. -/
theorem chunkLoop_all_ok (tbl : RefTables) (transport : Nat → ChunkReply)
    (tt : Option Nat) (chunks : List (List String)) :
    ∀ (idx elapsed : Nat) (cache : List (String × JVal))
      (result : List (String × RVal)) (trace : List (List String)),
    (∀ j, j < chunks.length → replyOk tbl (transport (idx + j)) = true) →
    resultGood tbl result = true →
    (∀ j, j < chunks.length → ttCheck tt (elapsed + sumFrom transport idx j) = false) →
    ∃ c r, ∀ rof, chunkLoop tbl transport tt rof chunks idx elapsed cache result trace =
      (trace ++ chunks, c, .ok r) := by
  induction chunks with
  | nil =>
    intro idx elapsed cache result trace _ _ _
    exact ⟨cache, result, fun rof => by simp [chunkLoop]⟩
  | cons ch rest ih =>
    intro idx elapsed cache result trace hreps hres htts
    have hok := hreps 0 (by simp)
    rw [Nat.add_zero] at hok
    obtain ⟨status, json, houtcome, h429, h400, hbody⟩ := replyOk_elim tbl _ hok
    have htt0 : ttCheck tt elapsed = false := by
      have h0 := htts 0 (by simp)
      simpa [sumFrom] using h0
    have hresm := resultGood_merge tbl json result hres hbody
    obtain ⟨result3, hfmt, hres3⟩ := formatAllVals_ok tbl _ hresm
    obtain ⟨c, r, hrun⟩ := ih (idx + 1) (elapsed + (transport idx).duration)
      (json.foldl (fun c kv => alSet c (cache_key kv.1) kv.2) cache) result3 (trace ++ [ch])
      (fun j hj => by
        have hr := hreps (j + 1) (by simpa using Nat.succ_lt_succ hj)
        rwa [show idx + (j + 1) = idx + 1 + j by omega] at hr)
      hres3
      (fun j hj => by
        have ht := htts (j + 1) (by simpa using Nat.succ_lt_succ hj)
        rwa [show elapsed + sumFrom transport idx (j + 1) =
            elapsed + (transport idx).duration + sumFrom transport (idx + 1) j by
          simp only [sumFrom]; omega] at ht)
    refine ⟨c, r, fun rof => ?_⟩
    rw [chunkLoop_step_ok tbl transport tt rof ch rest idx elapsed cache result trace
      status json result3 htt0 houtcome h429 h400 hfmt, hrun]
    simp

/-- If the replies for the first `k` remaining chunks succeed, no boundary
timeout fires through the `k`-th boundary, and the `k`-th reply is a
failure, then the loop dispatches exactly the first `k+1` chunks, reaches
a shared state, and exits through `return_or_fail` with that failure:
raised under `raise_on_fail = true`, the accumulated result returned
under `raise_on_fail = false`. -/
theorem chunkLoop_stops_at_failure (tbl : RefTables) (transport : Nat → ChunkReply)
    (tt : Option Nat) (k : Nat) :
    ∀ (chunks : List (List String)) (idx elapsed : Nat)
      (cache : List (String × JVal)) (result : List (String × RVal))
      (trace : List (List String)) (e : BatchError),
    k < chunks.length →
    (∀ j, j < k → replyOk tbl (transport (idx + j)) = true) →
    resultGood tbl result = true →
    (∀ j, j ≤ k → ttCheck tt (elapsed + sumFrom transport idx j) = false) →
    failureOf (transport (idx + k)).outcome = some e →
    ∃ c r, ∀ rof, chunkLoop tbl transport tt rof chunks idx elapsed cache result trace =
      (trace ++ chunks.take (k + 1), c, return_or_fail rof e r) := by
  induction k with
  | zero =>
    intro chunks idx elapsed cache result trace e hk _ _ htts hfail
    cases chunks with
    | nil => exact absurd hk (by simp)
    | cons ch rest =>
      have htt0 : ttCheck tt elapsed = false := by
        have h0 := htts 0 (by simp)
        simpa [sumFrom] using h0
      rw [Nat.add_zero] at hfail
      exact ⟨cache, result, fun rof =>
        chunkLoop_step_fail tbl transport tt rof ch rest idx elapsed cache result trace
          e htt0 hfail⟩
  | succ k ih =>
    intro chunks idx elapsed cache result trace e hk hreps hres htts hfail
    cases chunks with
    | nil => exact absurd hk (by simp)
    | cons ch rest =>
      have hok := hreps 0 (by simp)
      rw [Nat.add_zero] at hok
      obtain ⟨status, json, houtcome, h429, h400, hbody⟩ := replyOk_elim tbl _ hok
      have htt0 : ttCheck tt elapsed = false := by
        have h0 := htts 0 (by simp)
        simpa [sumFrom] using h0
      have hresm := resultGood_merge tbl json result hres hbody
      obtain ⟨result3, hfmt, hres3⟩ := formatAllVals_ok tbl _ hresm
      obtain ⟨c, r, hrun⟩ := ih rest (idx + 1) (elapsed + (transport idx).duration)
        (json.foldl (fun c kv => alSet c (cache_key kv.1) kv.2) cache) result3
        (trace ++ [ch]) e
        (by simpa using Nat.lt_of_succ_lt_succ hk)
        (fun j hj => by
          have hr := hreps (j + 1) (Nat.succ_lt_succ hj)
          rwa [show idx + (j + 1) = idx + 1 + j by omega] at hr)
        hres3
        (fun j hj => by
          have ht := htts (j + 1) (Nat.succ_le_succ hj)
          rwa [show elapsed + sumFrom transport idx (j + 1) =
              elapsed + (transport idx).duration + sumFrom transport (idx + 1) j by
            simp only [sumFrom]; omega] at ht)
        (by rwa [show idx + 1 + k = idx + (k + 1) by omega])
      refine ⟨c, r, fun rof => ?_⟩
      rw [chunkLoop_step_ok tbl transport tt rof ch rest idx elapsed cache result trace
        status json result3 htt0 houtcome h429 h400 hfmt, hrun]
      simp

/-- If the replies for the first `k` remaining chunks succeed, the
boundary timeout stays quiet before the `k`-th boundary but fires at it,
the loop dispatches exactly the first `k` chunks and exits through
`return_or_fail` with the timeout failure, never dispatching the `k`-th
chunk. -/
theorem chunkLoop_timeout_at (tbl : RefTables) (transport : Nat → ChunkReply)
    (tt : Option Nat) (k : Nat) :
    ∀ (chunks : List (List String)) (idx elapsed : Nat)
      (cache : List (String × JVal)) (result : List (String × RVal))
      (trace : List (List String)),
    k < chunks.length →
    (∀ j, j < k → replyOk tbl (transport (idx + j)) = true) →
    resultGood tbl result = true →
    (∀ j, j < k → ttCheck tt (elapsed + sumFrom transport idx j) = false) →
    ttCheck tt (elapsed + sumFrom transport idx k) = true →
    ∃ c r, ∀ rof, chunkLoop tbl transport tt rof chunks idx elapsed cache result trace =
      (trace ++ chunks.take k, c, return_or_fail rof .timeoutExceeded r) := by
  induction k with
  | zero =>
    intro chunks idx elapsed cache result trace hk _ _ _ httk
    cases chunks with
    | nil => exact absurd hk (by simp)
    | cons ch rest =>
      have htt0 : ttCheck tt elapsed = true := by simpa [sumFrom] using httk
      exact ⟨cache, result, fun rof => by
        rw [chunkLoop_step_tt tbl transport tt rof ch rest idx elapsed cache result
          trace htt0]
        simp⟩
  | succ k ih =>
    intro chunks idx elapsed cache result trace hk hreps hres htts httk
    cases chunks with
    | nil => exact absurd hk (by simp)
    | cons ch rest =>
      have hok := hreps 0 (by simp [Nat.succ_pos])
      rw [Nat.add_zero] at hok
      obtain ⟨status, json, houtcome, h429, h400, hbody⟩ := replyOk_elim tbl _ hok
      have htt0 : ttCheck tt elapsed = false := by
        have h0 := htts 0 (by simp [Nat.succ_pos])
        simpa [sumFrom] using h0
      have hresm := resultGood_merge tbl json result hres hbody
      obtain ⟨result3, hfmt, hres3⟩ := formatAllVals_ok tbl _ hresm
      obtain ⟨c, r, hrun⟩ := ih rest (idx + 1) (elapsed + (transport idx).duration)
        (json.foldl (fun c kv => alSet c (cache_key kv.1) kv.2) cache) result3
        (trace ++ [ch])
        (by simpa using Nat.lt_of_succ_lt_succ hk)
        (fun j hj => by
          have hr := hreps (j + 1) (Nat.succ_lt_succ hj)
          rwa [show idx + (j + 1) = idx + 1 + j by omega] at hr)
        hres3
        (fun j hj => by
          have ht := htts (j + 1) (Nat.succ_lt_succ hj)
          rwa [show elapsed + sumFrom transport idx (j + 1) =
              elapsed + (transport idx).duration + sumFrom transport (idx + 1) j by
            simp only [sumFrom]; omega] at ht)
        (by
          rwa [show elapsed + sumFrom transport idx (k + 1) =
              elapsed + (transport idx).duration + sumFrom transport (idx + 1) k by
            simp only [sumFrom]; omega] at httk)
      refine ⟨c, r, fun rof => ?_⟩
      rw [chunkLoop_step_ok tbl transport tt rof ch rest idx elapsed cache result trace
        status json result3 htt0 houtcome h429 h400 hfmt, hrun]
      simp

theorem alGet_mem {α : Type} (l : List (String × α)) (key : String) (v : α)
    (h : alGet l key = some v) : (key, v) ∈ l := by
  induction l with
  | nil => simp [alGet] at h
  | cons kv rest ih =>
    obtain ⟨k, w⟩ := kv
    by_cases hk : k = key
    · subst hk
      have h2 : w = v := by simpa [alGet] using h
      rw [← h2]
      exact List.mem_cons_self _ _
    · simp only [alGet, if_neg hk] at h
      exact List.mem_cons_of_mem _ (ih h)

theorem batchPlanStep_good (tbl : RefTables) (cache : List (String × JVal))
    (hc : ∀ kv ∈ cache, jvalGood tbl kv.2 = true)
    (st : List (String × RVal) × List String) (ip : String)
    (hst : resultGood tbl st.1 = true) :
    resultGood tbl (batchPlanStep cache st ip).1 = true := by
  unfold batchPlanStep
  have hst1 : ∀ st1 : List (String × RVal) × List String,
      resultGood tbl st1.1 = true →
      resultGood tbl
        (match alGet cache (cache_key ip) with
         | some cached => (alSet st1.1 ip (RVal.jval cached), st1.2)
         | none => (st1.1, st1.2 ++ [ip])).1 = true := by
    intro st1 h1
    cases hcg : alGet cache (cache_key ip) with
    | none => exact h1
    | some cached =>
      have hmem := alGet_mem cache (cache_key ip) cached hcg
      exact resultGood_alSet tbl st1.1 ip (.jval cached) h1
        (by simpa [rvalGood] using hc _ hmem)
  split
  · exact hst1 _ (resultGood_alSet tbl st.1 ip _ hst rfl)
  · exact hst1 _ hst

theorem batchPlan_good (tbl : RefTables) (cache : List (String × JVal))
    (hc : ∀ kv ∈ cache, jvalGood tbl kv.2 = true) (ips : List String) :
    resultGood tbl (batchPlan cache ips).1 = true := by
  have hgen : ∀ (l : List String) (st : List (String × RVal) × List String),
      resultGood tbl st.1 = true →
      resultGood tbl (l.foldl (batchPlanStep cache) st).1 = true := by
    intro l
    induction l with
    | nil => intro st h; exact h
    | cons ip rest ih =>
      intro st h
      exact ih _ (batchPlanStep_good tbl cache hc st ip h)
  exact hgen ips ([], []) rfl

/-- State of the heap model of the chunk-processing segment of
`getBatchDetails`: record dicts are mutable objects living in a heap
(addresses are indices), and the cache and the result map hold
references to them — the same reference when an entry was both cached
and merged, exactly as the Python objects alias. -/
structure HeapState where
  heap : List Rec
  cache : List (String × Nat)
  result : List (String × Nat)
  deriving DecidableEq

/-- Read the record object at address `a`. -/
def heapGet : List Rec → Nat → Option Rec
  | [], _ => none
  | r :: _, 0 => some r
  | _ :: rest, a + 1 => heapGet rest a

/-- Overwrite the record object at address `a` in place. -/
def heapSet : List Rec → Nat → Rec → List Rec
  | [], _, _ => []
  | _ :: rest, 0, r => r :: rest
  | x :: rest, a + 1, r => x :: heapSet rest a r

theorem heapGet_lt (h : List Rec) (a : Nat) (r : Rec)
    (hg : heapGet h a = some r) : a < h.length := by
  induction h generalizing a with
  | nil => simp [heapGet] at hg
  | cons x rest ih =>
    cases a with
    | zero => simp
    | succ a => exact Nat.succ_lt_succ (ih a hg)

theorem heapGet_append (h xs : List Rec) (a : Nat) (r : Rec)
    (hg : heapGet h a = some r) : heapGet (h ++ xs) a = some r := by
  induction h generalizing a with
  | nil => simp [heapGet] at hg
  | cons x rest ih =>
    cases a with
    | zero => exact hg
    | succ a => exact ih a hg

theorem heapGet_heapSet_self (h : List Rec) (a : Nat) (r : Rec)
    (hlt : a < h.length) : heapGet (heapSet h a r) a = some r := by
  induction h generalizing a with
  | nil => simp at hlt
  | cons x rest ih =>
    cases a with
    | zero => rfl
    | succ a => exact ih a (Nat.lt_of_succ_lt_succ hlt)

theorem heapGet_heapSet_ne (h : List Rec) (a b : Nat) (r : Rec)
    (hne : b ≠ a) : heapGet (heapSet h b r) a = heapGet h a := by
  induction h generalizing a b with
  | nil => rfl
  | cons x rest ih =>
    cases b with
    | zero =>
      cases a with
      | zero => exact absurd rfl hne
      | succ a => rfl
    | succ b =>
      cases a with
      | zero => rfl
      | succ a => exact ih a b (fun he => hne (by rw [he]))

/-- The cache-fill loop of one chunk (`for ip_address, details in
json_response.items(): self.cache[cache_key(ip_address)] = details`,
lines 275-277), in the heap model: each response record is a fresh
object appended to the heap, and the cache maps its versioned key to the
object's address. The record is stored RAW — formatting has not happened
yet at this point. -/
def cacheFillH (st : HeapState) (body : List (String × Rec)) : HeapState :=
  { heap := st.heap ++ body.map Prod.snd,
    cache := body.enum.foldl
      (fun c p => alSet c (cache_key p.2.1) (st.heap.length + p.1)) st.cache,
    result := st.result }

/-- The `result.update(json_response)` merge (line 280) in the heap model:
the result map receives references to the SAME objects the cache-fill
just stored. -/
def mergeResultH (st : HeapState) (body : List (String × Rec)) : List (String × Nat) :=
  body.enum.foldl (fun r p => alSet r p.2.1 (st.heap.length + p.1)) st.result

/-- The format-all loop (lines 283-292) in the heap model: every record
referenced from the result map is formatted IN PLACE, mutating the heap
object — and therefore also what the cache references. -/
def formatHeapLoop (tbl : RefTables) : List (String × Nat) → List Rec → Option (List Rec)
  | [], h => some h
  | (_, a) :: rest, h =>
    match heapGet h a with
    | none => none
    | some r =>
      match format_details tbl r with
      | none => none
      | some r2 => formatHeapLoop tbl rest (heapSet h a r2)

/-- One full chunk-processing step of `getBatchDetails` (handler.py,
lines 274-292) in the heap model: fill the cache with the raw response
records, merge the same references into the result map, then format every
result-referenced record in place. -/
def processChunkH (tbl : RefTables) (st : HeapState) (body : List (String × Rec)) :
    Option HeapState :=
  let st1 := cacheFillH st body
  let result1 := mergeResultH st body
  (formatHeapLoop tbl result1 st1.heap).map (fun h2 => ⟨h2, st1.cache, result1⟩)

theorem formatHeapLoop_preserves (tbl : RefTables) (lst : List (String × Nat)) :
    ∀ (h h2 : List Rec) (a : Nat) (r : Rec),
    heapGet h a = some r → format_details tbl r = some r →
    formatHeapLoop tbl lst h = some h2 → heapGet h2 a = some r := by
  induction lst with
  | nil =>
    intro h h2 a r ha _ hloop
    obtain rfl := Option.some.inj hloop
    exact ha
  | cons p rest ih =>
    intro h h2 a r ha hstable hloop
    obtain ⟨k, b⟩ := p
    simp only [formatHeapLoop] at hloop
    cases hb : heapGet h b with
    | none => simp [hb] at hloop
    | some rb =>
      simp only [hb] at hloop
      cases hf : format_details tbl rb with
      | none => simp [hf] at hloop
      | some rb2 =>
        simp only [hf] at hloop
        by_cases hba : b = a
        · subst hba
          have hrb : rb = r := Option.some.inj (hb.symm.trans ha)
          have hstable2 : format_details tbl rb = some rb := by
            rw [hrb]; exact hstable
          have hfr : rb2 = rb := Option.some.inj (hf.symm.trans hstable2)
          rw [hfr] at hloop
          have hga : heapGet (heapSet h b rb) b = some rb :=
            heapGet_heapSet_self h b rb (heapGet_lt h b rb hb)
          have hfin := ih _ h2 b rb hga hstable2 hloop
          rw [hrb] at hfin
          exact hfin
        · exact ih _ h2 a r
            (by rw [heapGet_heapSet_ne h a b rb2 hba]; exact ha) hstable hloop

end Ipinfo

deriving instance DecidableEq for Except

namespace Ipinfo

/-- Empty reference tables (a handler with empty data files). -/
def emptyTables : RefTables := ⟨[], [], [], [], []⟩

/-- Small sample reference tables with a single known country. -/
def sampleTables : RefTables :=
  ⟨[("US", "United States")], ["FR"], [("US", .table [("emoji", "flagUS")])], [],
   [("US", .table [("code", "NA"), ("name", "North America")])]⟩

/-- A transport that always answers HTTP 429 for batch chunks. -/
def transport429 : Nat → ChunkReply := fun _ => ⟨.resp 429 none, 0⟩

/-- A transport whose calls each succeed with an empty mapping and take
10 seconds of wall clock. -/
def transportSlow10 : Nat → ChunkReply := fun _ => ⟨.resp 200 (some []), 10⟩

/-- A transport that echoes the bogon loopback address back as a batch
response record (what the input would produce once dispatched). -/
def bogonEchoTransport : Nat → ChunkReply := fun _ =>
  ⟨.resp 200 (some [("127.0.0.1", .obj [("ip", .str "127.0.0.1"), ("bogon", .bool true)])]), 0⟩

/-- Claim C1. The single-lookup half holds: `Handler.getDetails` applies
the bogon short-circuit before any cache read or network dispatch and
returns exactly the minimal bogon record. The batch half is the code bug:
in `Handler.getBatchDetails` the cache try/except (handler.py lines
225-229) runs for bogon inputs too, so a bogon absent from the cache is
appended to `lookup_addresses`, dispatched inside a network chunk, and
the server's response for it is written into the cache — evaluated here
at the failing input `["127.0.0.1"]` with an empty cache. -/
theorem c1_bogon_shortcircuit_vs_batch_dispatch :
    (∀ (tbl : RefTables) (cache : List (String × JVal)) (resp : HttpResponse),
      getDetails tbl cache resp "127.0.0.1" =
        (false, cache, .ok (.obj [("ip", .str "127.0.0.1"), ("bogon", .bool true)]))) ∧
    (batchPlan [] ["127.0.0.1"]).2 = ["127.0.0.1"] ∧
    (getBatchDetails emptyTables [] bogonEchoTransport ["127.0.0.1"]
      BATCH_MAX_SIZE none true).1 = [["127.0.0.1"]] ∧
    alHasKey (getBatchDetails emptyTables [] bogonEchoTransport ["127.0.0.1"]
      BATCH_MAX_SIZE none true).2.1 (cache_key "127.0.0.1") = true := by
  refine ⟨?_, by decide, by decide, by decide⟩
  intro tbl cache resp
  unfold getDetails
  rw [if_pos (by decide : ("127.0.0.1" : String) ≠ "" ∧ is_bogon "127.0.0.1" = true)]

/-- Claim C2. The pre-population loop of `Handler.getBatchDetails` does
NOT put each non-bogon cache-miss address into the pending list exactly
once: the non-bogon `else` branch appends unconditionally and the
cache-miss `except` appends again, so with an empty cache each address
appears twice, and a cache-hit address is still appended once. The
chunk-slicing itself behaves as described (contiguous slices of at most
`batch_size`, concatenating to the pending list). Evaluated at the
failing input `["1.1.1.1", "8.8.8.8"]` with an empty cache. -/
theorem c2_pending_list_duplicates :
    (batchPlan [] ["1.1.1.1", "8.8.8.8"]).2 =
      ["1.1.1.1", "1.1.1.1", "8.8.8.8", "8.8.8.8"] ∧
    (["1.1.1.1", "1.1.1.1", "8.8.8.8", "8.8.8.8"] : List String) ≠
      ["1.1.1.1", "8.8.8.8"] ∧
    (batchPlan [(cache_key "8.8.8.8", .obj [("ip", .str "8.8.8.8")])] ["8.8.8.8"]).2 =
      ["8.8.8.8"] ∧
    chunksFor ["1.1.1.1", "1.1.1.1", "8.8.8.8", "8.8.8.8"] 3 =
      [["1.1.1.1", "1.1.1.1", "8.8.8.8"], ["8.8.8.8"]] := by
  exact ⟨by decide, by decide, by decide, by decide⟩

/-- An HTTP 500 response whose body is not valid JSON. -/
def resp500Text : HttpResponse := ⟨500, none, none, "oops"⟩

/-- Claim C3, counterexample: `Handler.getDetails` (unlike
`HandlerLite.getDetails`) calls `response.json()` unconditionally on an
error status, so a 500 response with an unstructured body raises a JSON
decode error, not an `APIError` carrying a synthesized
`error: <raw body>` mapping. -/
theorem c3_counterexample :
    getDetails emptyTables [] resp500Text "1.2.3.4" =
      (true, [], .error .jsonDecodeError) ∧
    ReqError.jsonDecodeError ≠ .apiError 500 (.obj [("error", .str "oops")]) := by
  exact ⟨by decide, by decide⟩

/-- The corrected error mapping of the two single-key lookups for a
non-bogon, non-cached address. -/
def c3ErrorSpec (tbl : RefTables) (cache : List (String × JVal))
    (resp : HttpResponse) (ip : String) : Prop :=
  (resp.status = 429 →
    getDetails tbl cache resp ip = (true, cache, .error .quotaExceeded) ∧
    getDetailsLite tbl cache resp ip = (true, cache, .error .quotaExceeded)) ∧
  (resp.status ≠ 429 → 400 ≤ resp.status →
    ((∀ j, resp.jsonBody = some j →
       getDetails tbl cache resp ip = (true, cache, .error (.apiError resp.status j))) ∧
     (resp.jsonBody = none →
       getDetails tbl cache resp ip = (true, cache, .error .jsonDecodeError)) ∧
     (resp.contentType = some "application/json" →
       (∀ j, resp.jsonBody = some j →
         getDetailsLite tbl cache resp ip = (true, cache, .error (.apiError resp.status j))) ∧
       (resp.jsonBody = none →
         getDetailsLite tbl cache resp ip = (true, cache, .error .jsonDecodeError))) ∧
     (resp.contentType ≠ some "application/json" →
       getDetailsLite tbl cache resp ip =
         (true, cache, .error (.apiError resp.status (.obj [("error", .str resp.text)]))))))

/-- Claim C3, amended: HTTP 429 raises the quota error in both handlers;
for any other status >= 400, `Handler.getDetails` always parses the body
as JSON (raising APIError with the parsed body, or a JSON decode error
for an unstructured body), while `HandlerLite.getDetails` keys on the
Content-Type header: `application/json` means parse (APIError with parse,
or decode error), anything else synthesizes the APIError body as the raw
text under the `error` key. -/
theorem c3_amended_error_mapping :
    ∀ (tbl : RefTables) (cache : List (String × JVal)) (resp : HttpResponse)
      (ip : String),
    ¬(ip ≠ "" ∧ is_bogon ip = true) →
    alGet cache (cache_key ip) = none →
    c3ErrorSpec tbl cache resp ip := by
  intro tbl cache resp ip hbog hcache
  refine ⟨?_, ?_⟩
  · intro h429
    constructor
    · simp [getDetails, hbog, hcache, h429]
    · simp [getDetailsLite, hbog, hcache, h429]
  · intro h429 h400
    refine ⟨?_, ?_, ?_, ?_⟩
    · intro j hj
      simp [getDetails, hbog, hcache, h429, h400, hj]
    · intro hj
      simp [getDetails, hbog, hcache, h429, h400, hj]
    · intro hct
      constructor
      · intro j hj
        simp [getDetailsLite, hbog, hcache, h429, h400, hct, hj]
      · intro hj
        simp [getDetailsLite, hbog, hcache, h429, h400, hct, hj]
    · intro hct
      simp [getDetailsLite, hbog, hcache, h429, h400, hct]

/-- An HTTP 500 response with a plain-text content type. -/
def resp500Plain : HttpResponse := ⟨500, some "text/plain", none, "oops"⟩

/-- Witness for C3's amended theorem at a concrete non-bogon address,
empty cache, and a plain-text 500 response. -/
theorem c3_witness :
    (¬(("1.2.3.4" : String) ≠ "" ∧ is_bogon "1.2.3.4" = true)) ∧
    alGet ([] : List (String × JVal)) (cache_key "1.2.3.4") = none ∧
    c3ErrorSpec emptyTables [] resp500Plain "1.2.3.4" :=
  ⟨by decide, by decide,
   c3_amended_error_mapping emptyTables [] resp500Plain "1.2.3.4" (by decide) (by decide)⟩

theorem chunksFor_nil (bs : Nat) : chunksFor [] bs = [] := by
  unfold chunksFor chunkStarts
  cases bs with
  | zero => simp
  | succ n =>
    have h0 : n / (n + 1) = 0 := Nat.div_eq_of_lt (Nat.lt_succ_self n)
    simp [h0]

/-- The failure behavior claimed for a batch call whose first `k` chunk
replies succeed and whose `k`-th reply fails: both `raise_on_fail`
settings reach the same state having dispatched exactly chunks `0..k`,
and exit through `return_or_fail` — the failure raised under `true`, the
accumulated result returned under `false`. -/
def c4Concl (tbl : RefTables) (cache : List (String × JVal))
    (transport : Nat → ChunkReply) (ips : List String) (bs : Nat)
    (tt : Option Nat) (k : Nat) (e : BatchError) : Prop :=
  ∃ c r, ∀ rof, getBatchDetails tbl cache transport ips bs tt rof =
    ((chunksFor (batchPlan cache ips).2 bs).take (k + 1), c, return_or_fail rof e r)

/-- The behavior claimed for a batch call whose total-timeout check
fires at the `k`-th chunk boundary: both `raise_on_fail` settings reach
the same state having dispatched exactly the first `k` chunks, and exit
through `return_or_fail` with the timeout failure — raised under `true`,
the accumulated result returned under `false`. -/
def c4TimeoutConcl (tbl : RefTables) (cache : List (String × JVal))
    (transport : Nat → ChunkReply) (ips : List String) (bs T k : Nat) : Prop :=
  ∃ c r, ∀ rof, getBatchDetails tbl cache transport ips bs (some T) rof =
    ((chunksFor (batchPlan cache ips).2 bs).take k, c,
     return_or_fail rof .timeoutExceeded r)

/-- Claim C4: any chunk failure — a transport exception, HTTP 429, an
API error status, or the total timeout firing at a chunk boundary — is
raised to the caller immediately under `raise_on_fail = true` (no
further chunk dispatched) and swallowed under `raise_on_fail = false`,
which returns the result accumulated so far; in particular, with a
transport that always answers HTTP 429 and no cache hits,
`raise_on_fail = true` raises the quota error and
`raise_on_fail = false` returns the empty map. -/
theorem c4_raise_on_fail_policy :
    (∀ (tbl : RefTables) (cache : List (String × JVal))
       (transport : Nat → ChunkReply) (ips : List String) (bs : Nat)
       (tt : Option Nat) (k : Nat) (e : BatchError),
      (∀ kv ∈ cache, jvalGood tbl kv.2 = true) →
      k < (chunksFor (batchPlan cache ips).2 bs).length →
      (∀ j, j < k → replyOk tbl (transport j) = true) →
      (∀ j, j ≤ k → ttCheck tt (sumFrom transport 0 j) = false) →
      failureOf (transport k).outcome = some e →
      c4Concl tbl cache transport ips bs tt k e) ∧
    (∀ (tbl : RefTables) (cache : List (String × JVal))
       (transport : Nat → ChunkReply) (ips : List String) (bs T k : Nat),
      (∀ kv ∈ cache, jvalGood tbl kv.2 = true) →
      k < (chunksFor (batchPlan cache ips).2 bs).length →
      (∀ j, j < k → replyOk tbl (transport j) = true) →
      (∀ j, j < k → ttCheck (some T) (sumFrom transport 0 j) = false) →
      ttCheck (some T) (sumFrom transport 0 k) = true →
      c4TimeoutConcl tbl cache transport ips bs T k) ∧
    getBatchDetails emptyTables [] transport429 ["1.1.1.1", "8.8.8.8"]
      BATCH_MAX_SIZE none true =
      ([["1.1.1.1", "1.1.1.1", "8.8.8.8", "8.8.8.8"]], [], .error .quotaExceeded) ∧
    getBatchDetails emptyTables [] transport429 ["1.1.1.1", "8.8.8.8"]
      BATCH_MAX_SIZE none false =
      ([["1.1.1.1", "1.1.1.1", "8.8.8.8", "8.8.8.8"]], [], .ok []) := by
  refine ⟨?_, ?_, by decide, by decide⟩
  · intro tbl cache transport ips bs tt k e hc hk hreps htts hfail
    unfold c4Concl
    simp only [getBatchDetails]
    by_cases hpend : (batchPlan cache ips).2 = []
    · rw [hpend, chunksFor_nil] at hk
      exact absurd hk (by simp)
    · obtain ⟨c, r, hrun⟩ := chunkLoop_stops_at_failure tbl transport tt k
        (chunksFor (batchPlan cache ips).2 bs) 0 0 cache (batchPlan cache ips).1 [] e hk
        (fun j hj => by rw [Nat.zero_add]; exact hreps j hj)
        (batchPlan_good tbl cache hc ips)
        (fun j hj => by rw [Nat.zero_add]; exact htts j hj)
        (by rw [Nat.zero_add]; exact hfail)
      refine ⟨c, r, fun rof => ?_⟩
      rw [if_neg hpend, hrun rof]
      simp
  · intro tbl cache transport ips bs T k hc hk hreps htts httk
    unfold c4TimeoutConcl
    simp only [getBatchDetails]
    by_cases hpend : (batchPlan cache ips).2 = []
    · rw [hpend, chunksFor_nil] at hk
      exact absurd hk (by simp)
    · obtain ⟨c, r, hrun⟩ := chunkLoop_timeout_at tbl transport (some T) k
        (chunksFor (batchPlan cache ips).2 bs) 0 0 cache (batchPlan cache ips).1 [] hk
        (fun j hj => by rw [Nat.zero_add]; exact hreps j hj)
        (batchPlan_good tbl cache hc ips)
        (fun j hj => by rw [Nat.zero_add]; exact htts j hj)
        (by rw [Nat.zero_add]; exact httk)
      refine ⟨c, r, fun rof => ?_⟩
      rw [if_neg hpend, hrun rof]
      simp

/-- Witness for C4's general parts: the 429 transport fails the first
chunk, and two 10-second chunks against a 5-second total timeout make
the second boundary check fire under both `raise_on_fail` settings. -/
theorem c4_witness :
    ((∀ kv ∈ ([] : List (String × JVal)), jvalGood emptyTables kv.2 = true) ∧
     0 < (chunksFor (batchPlan [] ["1.1.1.1", "8.8.8.8"]).2 BATCH_MAX_SIZE).length ∧
     failureOf (transport429 0).outcome = some .quotaExceeded ∧
     c4Concl emptyTables [] transport429 ["1.1.1.1", "8.8.8.8"] BATCH_MAX_SIZE none 0
       .quotaExceeded) ∧
    (1 < (chunksFor (batchPlan [] ["1.1.1.1"]).2 1).length ∧
     ttCheck (some 5) (sumFrom transportSlow10 0 1) = true ∧
     c4TimeoutConcl emptyTables [] transportSlow10 ["1.1.1.1"] 1 5 1) :=
  ⟨⟨fun kv hkv => absurd hkv (List.not_mem_nil kv), by decide, by decide,
    c4_raise_on_fail_policy.1 emptyTables [] transport429 ["1.1.1.1", "8.8.8.8"]
      BATCH_MAX_SIZE none 0 .quotaExceeded
      (fun kv hkv => absurd hkv (List.not_mem_nil kv)) (by decide)
      (fun j hj => absurd hj (Nat.not_lt_zero j))
      (fun j _ => rfl) (by decide)⟩,
   ⟨by decide, by decide,
    c4_raise_on_fail_policy.2.1 emptyTables [] transportSlow10 ["1.1.1.1"] 1 5 1
      (fun kv hkv => absurd hkv (List.not_mem_nil kv)) (by decide) (by decide)
      (by decide) (by decide)⟩⟩

/-- Whether a list splits into exactly two non-empty pieces (the
condition under which `read_coords` yields coordinates). -/
def twoNonempty (l : List String) : Bool :=
  match l with
  | [a, b] => !(a == "") && !(b == "")
  | _ => false

/-- Claim C5: `"37.4056,-122.0775"` parses into latitude `"37.4056"` and
longitude `"-122.0775"`; an absent (`None`) or empty location string, or
one that does not split on the comma into exactly two non-empty pieces,
leaves both outputs unset (`none`, not zero, not an error); and for a
record whose `loc` is absent or empty, the enricher leaves the
latitude/longitude fields exactly as they were. -/
theorem c5_read_coords_parsing :
    read_coords (some "37.4056,-122.0775") = (some "37.4056", some "-122.0775") ∧
    read_coords none = (none, none) ∧
    read_coords (some "") = (none, none) ∧
    (∀ s : String, twoNonempty (splitOnSep ',' s) = false →
      read_coords (some s) = (none, none)) ∧
    (∀ (tbl : RefTables) (d d2 : Rec), format_details tbl d = some d2 →
      (alGet d "loc" = none ∨ alGet d "loc" = some (.str "")) →
      alGet d2 "latitude" = alGet d "latitude" ∧
        alGet d2 "longitude" = alGet d "longitude") := by
  refine ⟨by decide, by decide, by decide, ?_, ?_⟩
  · intro s h
    by_cases hs : s = ""
    · subst hs
      decide
    · have hred : read_coords (some s) =
          (match splitOnSep ',' s with
           | [a, b] => if a ≠ "" ∧ b ≠ "" then (some a, some b) else (none, none)
           | _ => (none, none)) := by
        simp [read_coords, hs]
      rw [hred]
      cases hsp : splitOnSep ',' s with
      | nil => rfl
      | cons a tl =>
        cases tl with
        | nil => rfl
        | cons b tl2 =>
          cases tl2 with
          | cons c tl3 => rfl
          | nil =>
            rw [hsp] at h
            have hcon : ¬(a ≠ "" ∧ b ≠ "") := by
              intro hab
              have htrue : twoNonempty [a, b] = true := by
                simp [twoNonempty, hab.1, hab.2]
              rw [h] at htrue
              exact Bool.false_ne_true htrue
            show (if a ≠ "" ∧ b ≠ "" then (some a, some b) else (none, none)) =
              ((none : Option String), (none : Option String))
            rw [if_neg hcon]
  · intro tbl d d2 h hloc
    unfold format_details at h
    cases hcc : countryCodeOf d <;> simp only [hcc] at h
    case bool b => exact absurd h (by simp)
    case null => exact absurd h (by simp)
    case table t => exact absurd h (by simp)
    case str s =>
    simp only [fdAfterCC] at h
    have hl1 : alGet (fdDerived tbl s d) "loc" = alGet d "loc" :=
      alGet_fdDerived_stable tbl s d "loc" (by decide)
    rw [hl1] at h
    have hd2 : d2 = fdDerived tbl s d := by
      rcases hloc with hl | hl
      · rw [hl] at h
        simpa using h.symm
      · rw [hl] at h
        simpa [truthy] using h.symm
    subst hd2
    exact ⟨alGet_fdDerived_stable tbl s d "latitude" (by decide),
      alGet_fdDerived_stable tbl s d "longitude" (by decide)⟩

/-- Witness for C5's general parts: the no-comma location `"37.4056"` and
a record with no `loc` key. -/
theorem c5_witness :
    twoNonempty (splitOnSep ',' "37.4056") = false ∧
    read_coords (some "37.4056") = (none, none) ∧
    format_details sampleTables [("country", .str "US")] =
      some [("country", .str "US"), ("country_name", .str "United States"),
        ("isEU", .bool false),
        ("country_flag_url",
          .str "https://cdn.ipinfo.io/static/images/countries-flags/US.svg"),
        ("country_flag", .table [("emoji", "flagUS")]),
        ("continent", .table [("code", "NA"), ("name", "North America")])] ∧
    alGet ([("country", Value.str "US")] : Rec) "loc" = none :=
  ⟨by decide, c5_read_coords_parsing.2.2.2.1 "37.4056" (by decide),
   by decide, by decide⟩

/-- Claim C6: applying the enricher twice with the same tables is
idempotent — the second application takes the same branches and assigns
every derived field the identical value, leaving the record unchanged. -/
theorem c6_format_details_idempotent (tbl : RefTables) (d d2 : Rec)
    (h : format_details tbl d = some d2) : format_details tbl d2 = some d2 :=
  format_details_stable tbl d d2 h

/-- A record with a known country code and a well-formed location. -/
def c6rec : Rec :=
  [("ip", .str "8.8.8.8"), ("country", .str "US"), ("loc", .str "37.4056,-122.0775")]

/-- The enriched form of `c6rec` under `sampleTables`. -/
def c6recF : Rec :=
  [("ip", .str "8.8.8.8"), ("country", .str "US"), ("loc", .str "37.4056,-122.0775"),
   ("country_name", .str "United States"), ("isEU", .bool false),
   ("country_flag_url",
     .str "https://cdn.ipinfo.io/static/images/countries-flags/US.svg"),
   ("country_flag", .table [("emoji", "flagUS")]),
   ("continent", .table [("code", "NA"), ("name", "North America")]),
   ("latitude", .str "37.4056"), ("longitude", .str "-122.0775")]

/-- Witness for C6 at a concrete record with a known country code. -/
theorem c6_witness :
    format_details sampleTables c6rec = some c6recF ∧
    format_details sampleTables c6recF = some c6recF :=
  ⟨by decide, c6_format_details_idempotent sampleTables c6rec c6recF (by decide)⟩

theorem str_data_append (a b : String) : (a ++ b).data = a.data ++ b.data := by
  cases a
  cases b
  rfl

theorem str_ext (a b : String) (h : a.data = b.data) : a = b := by
  cases a
  cases b
  exact congrArg String.mk h

/-- Claim C7: `cache_key` is a pure deterministic function of the raw
key, its output is the raw key with the delimiter and the fixed version
literal appended, and applying the transform with two different version
tags to the same raw key never collides. -/
theorem c7_cache_key_versioned :
    (∀ k1 k2 : String, k1 = k2 → cache_key k1 = cache_key k2) ∧
    (∀ k : String, cache_key k = k ++ ":" ++ CACHE_KEY_VSN) ∧
    (∀ (k v1 v2 : String), v1 ≠ v2 → cache_keyWith v1 k ≠ cache_keyWith v2 k) := by
  refine ⟨fun k1 k2 h => by rw [h], fun k => rfl, ?_⟩
  intro k v1 v2 hne heq
  apply hne
  have hd := congrArg String.data heq
  unfold cache_keyWith at hd
  rw [str_data_append, str_data_append, str_data_append, str_data_append] at hd
  exact str_ext v1 v2 (List.append_cancel_left hd)

/-- Witness for C7: two version tags on the same raw key give distinct
cache keys. -/
theorem c7_witness :
    ("1" : String) ≠ "2" ∧ cache_keyWith "1" "8.8.8.8" ≠ cache_keyWith "2" "8.8.8.8" :=
  ⟨by decide, c7_cache_key_versioned.2.2 "8.8.8.8" "1" "2" (by decide)⟩

/-- A batch run in which every chunk succeeds and no boundary check
fires completes with all chunks dispatched and an `.ok` result. -/
def c8OkConcl (tbl : RefTables) (cache : List (String × JVal))
    (transport : Nat → ChunkReply) (ips : List String) (bs T : Nat) : Prop :=
  ∃ c r, getBatchDetails tbl cache transport ips bs (some T) true =
    (chunksFor (batchPlan cache ips).2 bs, c, .ok r)

/-- A batch run whose `k`-th boundary check fires terminates with
`TimeoutExceededError` having dispatched exactly the first `k` chunks. -/
def c8TimeoutConcl (tbl : RefTables) (cache : List (String × JVal))
    (transport : Nat → ChunkReply) (ips : List String) (bs T k : Nat) : Prop :=
  ∃ c, getBatchDetails tbl cache transport ips bs (some T) true =
    ((chunksFor (batchPlan cache ips).2 bs).take k, c, .error .timeoutExceeded)

/-- Claim C8: with `timeout_total` set, the aggregate-timeout condition
is evaluated only at chunk boundaries (it is a function of the cumulative
durations of the already-completed calls). If no boundary check fires,
every chunk is dispatched and the call succeeds even when the final
chunk's completion pushed the elapsed time past the bound — a completed
chunk is never retroactively failed. If the `k`-th boundary check fires
(the elapsed time then exceeds `timeout_total`), the call terminates with
`TimeoutExceededError` under `raise_on_fail = true` without dispatching
the `k`-th or any later chunk. -/
theorem c8_total_timeout_boundaries :
    (∀ (tbl : RefTables) (cache : List (String × JVal))
       (transport : Nat → ChunkReply) (ips : List String) (bs T : Nat),
      (∀ kv ∈ cache, jvalGood tbl kv.2 = true) →
      (∀ j, j < (chunksFor (batchPlan cache ips).2 bs).length →
        replyOk tbl (transport j) = true) →
      (∀ j, j < (chunksFor (batchPlan cache ips).2 bs).length →
        ttCheck (some T) (sumFrom transport 0 j) = false) →
      c8OkConcl tbl cache transport ips bs T) ∧
    (∀ (tbl : RefTables) (cache : List (String × JVal))
       (transport : Nat → ChunkReply) (ips : List String) (bs T k : Nat),
      (∀ kv ∈ cache, jvalGood tbl kv.2 = true) →
      k < (chunksFor (batchPlan cache ips).2 bs).length →
      (∀ j, j < k → replyOk tbl (transport j) = true) →
      (∀ j, j < k → ttCheck (some T) (sumFrom transport 0 j) = false) →
      ttCheck (some T) (sumFrom transport 0 k) = true →
      c8TimeoutConcl tbl cache transport ips bs T k) := by
  constructor
  · intro tbl cache transport ips bs T hc hreps htts
    unfold c8OkConcl
    by_cases hpend : (batchPlan cache ips).2 = []
    · refine ⟨cache, (batchPlan cache ips).1, ?_⟩
      simp only [getBatchDetails]
      rw [if_pos hpend, hpend, chunksFor_nil]
    · obtain ⟨c, r, hrun⟩ := chunkLoop_all_ok tbl transport (some T)
        (chunksFor (batchPlan cache ips).2 bs) 0 0 cache (batchPlan cache ips).1 []
        (fun j hj => by rw [Nat.zero_add]; exact hreps j hj)
        (batchPlan_good tbl cache hc ips)
        (fun j hj => by rw [Nat.zero_add]; exact htts j hj)
      refine ⟨c, r, ?_⟩
      simp only [getBatchDetails]
      rw [if_neg hpend, hrun true]
      simp
  · intro tbl cache transport ips bs T k hc hk hreps htts httk
    unfold c8TimeoutConcl
    by_cases hpend : (batchPlan cache ips).2 = []
    · rw [hpend, chunksFor_nil] at hk
      exact absurd hk (by simp)
    · obtain ⟨c, r, hrun⟩ := chunkLoop_timeout_at tbl transport (some T) k
        (chunksFor (batchPlan cache ips).2 bs) 0 0 cache (batchPlan cache ips).1 [] hk
        (fun j hj => by rw [Nat.zero_add]; exact hreps j hj)
        (batchPlan_good tbl cache hc ips)
        (fun j hj => by rw [Nat.zero_add]; exact htts j hj)
        (by rw [Nat.zero_add]; exact httk)
      refine ⟨c, ?_⟩
      simp only [getBatchDetails]
      rw [if_neg hpend, hrun true]
      simp [return_or_fail]

/-- Witness for C8: with two chunks of 10 seconds each, a 15-second total
timeout never fires at a boundary (0 and 10 seconds) and the call
completes even though it finishes at 20 seconds; a 5-second total timeout
fires at the second boundary and stops the call after one chunk. -/
theorem c8_witness :
    ((∀ kv ∈ ([] : List (String × JVal)), jvalGood emptyTables kv.2 = true) ∧
     (∀ j, j < (chunksFor (batchPlan [] ["1.1.1.1"]).2 1).length →
       replyOk emptyTables (transportSlow10 j) = true) ∧
     (∀ j, j < (chunksFor (batchPlan [] ["1.1.1.1"]).2 1).length →
       ttCheck (some 15) (sumFrom transportSlow10 0 j) = false) ∧
     c8OkConcl emptyTables [] transportSlow10 ["1.1.1.1"] 1 15) ∧
    (1 < (chunksFor (batchPlan [] ["1.1.1.1"]).2 1).length ∧
     ttCheck (some 5) (sumFrom transportSlow10 0 1) = true ∧
     c8TimeoutConcl emptyTables [] transportSlow10 ["1.1.1.1"] 1 5 1) :=
  ⟨⟨fun kv hkv => absurd hkv (List.not_mem_nil kv), by decide, by decide,
    c8_total_timeout_boundaries.1 emptyTables [] transportSlow10 ["1.1.1.1"] 1 15
      (fun kv hkv => absurd hkv (List.not_mem_nil kv)) (by decide) (by decide)⟩,
   ⟨by decide, by decide,
    c8_total_timeout_boundaries.2 emptyTables [] transportSlow10 ["1.1.1.1"] 1 5 1
      (fun kv hkv => absurd hkv (List.not_mem_nil kv)) (by decide) (by decide)
      (by decide) (by decide)⟩⟩

/-- The raw record a batch response delivers for `8.8.8.8`. -/
def c9rawRec : Rec := [("ip", .str "8.8.8.8"), ("country", .str "US")]

/-- The same record after enrichment under `sampleTables`. -/
def c9fmtRec : Rec :=
  [("ip", .str "8.8.8.8"), ("country", .str "US"),
   ("country_name", .str "United States"), ("isEU", .bool false),
   ("country_flag_url",
     .str "https://cdn.ipinfo.io/static/images/countries-flags/US.svg"),
   ("country_flag", .table [("emoji", "flagUS")]),
   ("continent", .table [("code", "NA"), ("name", "North America")])]

/-- Claim C9, counterexample: during `getBatchDetails` chunk processing
the record object is written into the cache RAW (the cache-fill loop runs
before the format-all pass) and is then mutated in place by the enricher
through the shared reference — so a record already placed into the cache
IS modified by a subsequent operation of the same call: after processing,
the cache still references address 0, whose contents changed from the raw
record to the enriched one. -/
theorem c9_counterexample :
    alGet (cacheFillH ⟨[], [], []⟩ [("8.8.8.8", c9rawRec)]).cache
      (cache_key "8.8.8.8") = some 0 ∧
    heapGet (cacheFillH ⟨[], [], []⟩ [("8.8.8.8", c9rawRec)]).heap 0 = some c9rawRec ∧
    processChunkH sampleTables ⟨[], [], []⟩ [("8.8.8.8", c9rawRec)] =
      some ⟨[c9fmtRec], [(cache_key "8.8.8.8", 0)], [("8.8.8.8", 0)]⟩ ∧
    heapGet [c9fmtRec] 0 = some c9fmtRec ∧
    c9fmtRec ≠ c9rawRec := by
  exact ⟨by decide, by decide, by decide, by decide, by decide⟩

/-- Claim C9, amended: a record is mutated after being placed into the
cache — the same chunk's format-all pass enriches it in place through the
aliased reference, and every later chunk re-applies the enricher to every
record in the result map. But because enrichment is idempotent, a record
whose contents are already enrichment-stable under the handler's tables
is never changed again: processing any further chunk leaves its heap cell
(and hence what the cache and the result map see) exactly as it was. -/
theorem c9_amended_stable_after_enrichment (tbl : RefTables) (st : HeapState)
    (body : List (String × Rec)) (st2 : HeapState) (a : Nat) (r : Rec)
    (hproc : processChunkH tbl st body = some st2)
    (ha : heapGet st.heap a = some r)
    (hstable : format_details tbl r = some r) :
    heapGet st2.heap a = some r := by
  simp only [processChunkH] at hproc
  cases hfl : formatHeapLoop tbl (mergeResultH st body) (cacheFillH st body).heap with
  | none => rw [hfl] at hproc; simp at hproc
  | some h2 =>
    rw [hfl] at hproc
    simp only [Option.map_some'] at hproc
    obtain rfl := Option.some.inj hproc
    have ha2 : heapGet (cacheFillH st body).heap a = some r := by
      simp only [cacheFillH]
      exact heapGet_append st.heap _ a r ha
    exact formatHeapLoop_preserves tbl _ _ h2 a r ha2 hstable hfl

/-- The heap state after the first chunk of the C9 scenario. -/
def c9st : HeapState := ⟨[c9fmtRec], [(cache_key "8.8.8.8", 0)], [("8.8.8.8", 0)]⟩

/-- The heap state after a second chunk delivering a record for
`9.9.9.9`: the first record's cell is untouched. -/
def c9st2 : HeapState :=
  ⟨[c9fmtRec,
    [("ip", .str "9.9.9.9"), ("isEU", .bool false),
     ("country_flag_url",
       .str "https://cdn.ipinfo.io/static/images/countries-flags/.svg")]],
   [(cache_key "8.8.8.8", 0), (cache_key "9.9.9.9", 1)],
   [("8.8.8.8", 0), ("9.9.9.9", 1)]⟩

/-- Witness for C9's amended theorem: processing a second chunk leaves
the already-enriched first record unchanged. -/
theorem c9_witness :
    processChunkH sampleTables c9st [("9.9.9.9", [("ip", .str "9.9.9.9")])] =
      some c9st2 ∧
    heapGet c9st.heap 0 = some c9fmtRec ∧
    format_details sampleTables c9fmtRec = some c9fmtRec ∧
    heapGet c9st2.heap 0 = some c9fmtRec :=
  ⟨by decide, by decide, by decide,
   c9_amended_stable_after_enrichment sampleTables c9st
     [("9.9.9.9", [("ip", .str "9.9.9.9")])] c9st2 0 c9fmtRec
     (by decide) (by decide) (by decide)⟩

/-- Claim C10, counterexample: attribute access on a `Details` object
does NOT return the stored value for every field name present in the
underlying mapping — names found by Python's normal attribute lookup
shadow the mapping. Instantiating the lookup environment with the two
names details.py itself binds (whose normal-lookup values the source
fixes as the full mapping), `Details(mapping_with_details_key).details`
and `Details(mapping_with_all_key).all` return the full underlying
mapping, not the stored values. -/
theorem c10_counterexample :
    details_access detailsOwnAttrs (detailsOwnVal [("details", .str "x")])
      [("details", .str "x")] "details" = .ok (.mapping [("details", .str "x")]) ∧
    AttrResult.mapping [("details", Value.str "x")] ≠ .value (.str "x") ∧
    details_access detailsOwnAttrs (detailsOwnVal [("all", .str "y")])
      [("all", .str "y")] "all" = .ok (.mapping [("all", .str "y")]) ∧
    AttrResult.mapping [("all", Value.str "y")] ≠ .value (.str "y") := by
  exact ⟨by decide, by decide, by decide, by decide⟩

/-- Claim C10, amended: the `__getattr__` fallback is consulted exactly
for the names Python's normal attribute lookup does not find on the
instance (the instance attribute `details`, the property `all`, the
class methods, and every `object`-inherited attribute such as
`__class__` or `__init__`); for any such fallback name, attribute access
returns the stored value when the name is present in the underlying
mapping and raises `AttributeError` (a distinguished field-not-present
failure, not a default) otherwise — whatever the exact normal-lookup set
of the runtime is. A name normal lookup finds returns that attribute's
value instead; in particular `all`, which normal lookup finds as the
class property, returns the full underlying mapping unchanged. The
`__getattr__` method itself behaves exactly as the claim states on every
name it is consulted for. -/
theorem c10_amended_attribute_access :
    (∀ (normalAttrs : List String) (getNormal : String → AttrResult) (r : Rec)
       (attr : String) (v : Value), attr ∉ normalAttrs →
      alGet r attr = some v →
      details_access normalAttrs getNormal r attr = .ok (.value v)) ∧
    (∀ (normalAttrs : List String) (getNormal : String → AttrResult) (r : Rec)
       (attr : String), attr ∉ normalAttrs →
      alGet r attr = none →
      details_access normalAttrs getNormal r attr = .error ()) ∧
    (∀ (normalAttrs : List String) (getNormal : String → AttrResult) (r : Rec),
      "all" ∈ normalAttrs → getNormal "all" = .mapping r →
      details_access normalAttrs getNormal r "all" = .ok (.mapping r)) ∧
    (∀ (r : Rec) (attr : String) (v : Value),
      alGet r attr = some v → details_getattr r attr = .ok v) ∧
    (∀ (r : Rec) (attr : String),
      alGet r attr = none → details_getattr r attr = .error ()) := by
  refine ⟨?_, ?_, ?_, ?_, ?_⟩
  · intro normalAttrs getNormal r attr v h1 h2
    simp [details_access, h1, h2]
  · intro normalAttrs getNormal r attr h1 h2
    simp [details_access, h1, h2]
  · intro normalAttrs getNormal r h1 h2
    simp [details_access, h1, h2]
  · intro r attr v h
    simp [details_getattr, h]
  · intro r attr h
    simp [details_getattr, h]

/-- Witness for C10's amended theorem at a concrete mapping and the
lookup environment details.py itself determines. -/
theorem c10_witness :
    (("country" : String) ∉ detailsOwnAttrs) ∧
    alGet ([("country", Value.str "US")] : Rec) "country" = some (.str "US") ∧
    details_access detailsOwnAttrs (detailsOwnVal [("country", .str "US")])
      [("country", .str "US")] "country" = .ok (.value (.str "US")) :=
  ⟨by decide, by decide,
   c10_amended_attribute_access.1 detailsOwnAttrs
     (detailsOwnVal [("country", .str "US")]) [("country", .str "US")] "country"
     (.str "US") (by decide) (by decide)⟩

end Ipinfo
